import Mathlib

/-!
Verification of the core algorithms of the `macos-layouts` repository:
the rect converter (`rect-converter.ts`), the display role resolver
(`display-resolver.ts`), the window matcher (`window-matcher.ts`) and the
layout builder (`layout-builder.ts`).

Modelling conventions: JavaScript numbers are rationals, `Math.round` is
`fun q => ⌊q + 1/2⌋` (its exact semantics away from floating-point edge
cases), JavaScript objects and `Map`s are ordered association lists,
`Array.prototype.sort` (stable in ECMAScript) is a stable insertion sort, and the
JavaScript regular-expression engine behind the `byTitle` matcher is an
abstract boolean oracle `regexTest` passed to `matchWindows`.
-/

namespace MacosLayouts

/-- Absolute pixel rectangle (`Rect` in `src/types/geometry.ts`). -/
structure Rect where
  x : ℚ
  y : ℚ
  w : ℚ
  h : ℚ
deriving DecidableEq, Repr

/-- Normalized rectangle (`NormalizedRect` in `src/types/geometry.ts`). -/
structure NormalizedRect where
  x : ℚ
  y : ℚ
  w : ℚ
  h : ℚ
deriving DecidableEq, Repr

/-- JavaScript `Math.round`: round half towards positive infinity. -/
def jsRound (q : ℚ) : ℤ := ⌊q + 1/2⌋

/-- `normalizedToAbsolute` from `src/lib/rect-converter.ts`. -/
def normalizedToAbsolute (n : NormalizedRect) (screenFrame : Rect) : Rect where
  x := (jsRound (screenFrame.x + n.x * screenFrame.w) : ℚ)
  y := (jsRound (screenFrame.y + n.y * screenFrame.h) : ℚ)
  w := (jsRound (n.w * screenFrame.w) : ℚ)
  h := (jsRound (n.h * screenFrame.h) : ℚ)

/-- `absoluteToNormalized` from `src/lib/rect-converter.ts`. -/
def absoluteToNormalized (a : Rect) (screenFrame : Rect) : NormalizedRect where
  x := (a.x - screenFrame.x) / screenFrame.w
  y := (a.y - screenFrame.y) / screenFrame.h
  w := a.w / screenFrame.w
  h := a.h / screenFrame.h

/-- A physical display snapshot (`RuntimeScreen` in `src/types/runtime.types.ts`);
`resolution` is split into its two components. -/
structure RuntimeScreen where
  id : String
  name : String
  isBuiltin : Bool
  isPrimary : Bool
  frame : Rect
  fullFrame : Rect
  resolutionW : ℚ
  resolutionH : ℚ
deriving DecidableEq, Repr

/-- The display matcher variants (`DisplayMatch` in `src/types/display.types.ts`,
plus the `primary` variant handled by `matchScreen` and produced by the
layout builder). -/
inductive DisplayMatch where
  | builtin
  | primary
  | largestExternal
  | smallestExternal
  | externalByIndex (index : Int)
  | byName (name : String)
deriving DecidableEq, Repr

/-- A display role (`DisplayRole` in `src/types/display.types.ts`); the source
field `match` is a Lean keyword and is called `dmatch` here. -/
structure DisplayRole where
  dmatch : DisplayMatch
  fallback : Option String
deriving DecidableEq, Repr

/-- `area` from `src/lib/display-resolver.ts`. -/
def area (r : Rect) : ℚ := r.w * r.h

/-- Insert into a sorted list, before the first element that may not precede
the inserted one.  `le a b` reads: `a` may come before `b`, i.e. the
JavaScript comparator returns a non-positive number on `(a, b)`. -/
def orderedInsert {α : Type} (le : α → α → Bool) (x : α) : List α → List α
  | [] => [x]
  | y :: ys => if le x y then x :: y :: ys else y :: orderedInsert le x ys

/-- Stable insertion sort: the observable semantics ECMAScript guarantees
for `Array.prototype.sort` with a consistent comparator. -/
def stableSort {α : Type} (le : α → α → Bool) : List α → List α
  | [] => []
  | x :: xs => orderedInsert le x (stableSort le xs)

/-- JavaScript `String.prototype.includes`. -/
def jsIncludes (s sub : String) : Bool := decide (sub.data <:+: s.data)

/-- JavaScript array indexing `xs[i]` for a possibly negative index. -/
def getInt {α : Type} (xs : List α) (i : Int) : Option α :=
  if 0 ≤ i then xs[i.toNat]? else none

/-- The `largestExternal` reduce step: `area(s) > area(best) ? s : best`,
folded over the tail with the pool head as the accumulator (a JavaScript
`reduce` without an initial value). -/
def pickLargest (b : RuntimeScreen) (l : List RuntimeScreen) : RuntimeScreen :=
  l.foldl (fun best t => if area best.fullFrame < area t.fullFrame then t else best) b

/-- The `smallestExternal` reduce step: `area(s) <= area(best) ? s : best`. -/
def pickSmallest (b : RuntimeScreen) (l : List RuntimeScreen) : RuntimeScreen :=
  l.foldl (fun best t => if area t.fullFrame ≤ area best.fullFrame then t else best) b

/-- `matchScreen` from `src/lib/display-resolver.ts`.  The two `reduce` calls
without an initial value become folds over the tail with the head as the
accumulator, and the area-descending `sort` becomes the stable sort with
the comparator `area(b) - area(a)`. -/
def matchScreen : DisplayMatch → List RuntimeScreen → Option RuntimeScreen
  | .builtin, pool => pool.find? (fun t => t.isBuiltin)
  | .primary, pool => pool.find? (fun t => t.isPrimary)
  | .largestExternal, pool =>
    match pool.filter (fun t => !t.isBuiltin) with
    | [] => none
    | b :: rest => some (pickLargest b rest)
  | .smallestExternal, pool =>
    match pool.filter (fun t => !t.isBuiltin) with
    | [] => none
    | b :: rest => some (pickSmallest b rest)
  | .externalByIndex i, pool =>
    getInt (stableSort (fun x y => decide (area y.fullFrame ≤ area x.fullFrame))
      (pool.filter (fun t => !t.isBuiltin))) i
  | .byName n, pool => pool.find? (fun t => jsIncludes t.name n)

/-- One iteration of the `resolveDisplayRoles` loop: the accumulated
`resolved` record is an ordered association list, and `pool.splice` of the
matched screen is `List.erase`. -/
def resolveStep (st : List (String × Option RuntimeScreen) × List RuntimeScreen)
    (entry : String × DisplayRole) :
    List (String × Option RuntimeScreen) × List RuntimeScreen :=
  match matchScreen entry.2.dmatch st.2 with
  | some s => (st.1 ++ [(entry.1, some s)], st.2.erase s)
  | none =>
    match entry.2.fallback with
    | some fb => (st.1 ++ [(entry.1, (st.1.lookup fb).join)], st.2)
    | none => (st.1 ++ [(entry.1, none)], st.2)

/-- The `resolveDisplayRoles` loop over an arbitrary starting state. -/
def resolveAux (st : List (String × Option RuntimeScreen) × List RuntimeScreen)
    (roles : List (String × DisplayRole)) :
    List (String × Option RuntimeScreen) × List RuntimeScreen :=
  roles.foldl resolveStep st

/-- `resolveDisplayRoles` from `src/lib/display-resolver.ts`. -/
def resolveDisplayRoles (roles : List (String × DisplayRole))
    (screens : List RuntimeScreen) : List (String × Option RuntimeScreen) :=
  (resolveAux ([], screens) roles).1

/-- Lexicographic order on character lists: JavaScript string `<`. -/
def charListLT : List Char → List Char → Bool
  | [], [] => false
  | [], _ :: _ => true
  | _ :: _, [] => false
  | c :: cs, d :: ds => if c < d then true else if d < c then false else charListLT cs ds

/-- JavaScript string comparison `a < b`. -/
def strLT (a b : String) : Bool := charListLT a.data b.data

/-- Owning application of a window (the `app` field of `RuntimeWindow`). -/
structure AppInfo where
  name : String
  bundleId : Option String
  pid : Int
deriving DecidableEq, Repr

/-- A window snapshot (`RuntimeWindow` in `src/types/runtime.types.ts`). -/
structure RuntimeWindow where
  id : String
  app : AppInfo
  title : String
  role : String
  isStandard : Bool
  isMinimized : Bool
  isFocused : Bool
  screenId : String
  frame : Rect
deriving DecidableEq, Repr

/-- `AppIdentity` from `src/types/window.types.ts`: optional bundle id and
optional name (`undefined` is `none`). -/
structure AppIdentity where
  bundleId : Option String
  name : Option String
deriving DecidableEq, Repr

/-- The window matcher variants (`WindowMatch` in `src/types/window.types.ts`);
the source field `match` is a Lean keyword and is called `wmatch` on rules. -/
inductive WindowMatch where
  | mainWindow
  | byIndex (index : Int)
  | all
  | byTitle (pattern : String)
deriving DecidableEq, Repr

/-- `WindowPlacement` from `src/types/window.types.ts`. -/
structure WindowPlacement where
  display : String
  rect : NormalizedRect
deriving DecidableEq, Repr

/-- `WindowRule` from `src/types/window.types.ts`. -/
structure WindowRule where
  id : String
  app : AppIdentity
  wmatch : WindowMatch
  place : WindowPlacement
  required : Option Bool
  limit : Option Int
  space : Option Int
deriving DecidableEq, Repr

/-- `SkipReason` from `src/types/runtime.types.ts`. -/
inductive SkipReason where
  | appNotRunning
  | noWindows
  | noMatch
  | notStandardWindow
  | minimized
  | displayRoleUnresolved
deriving DecidableEq, Repr

/-- `WindowMatchResult` from `src/lib/window-matcher.ts`. -/
structure WindowMatchResult where
  ruleId : String
  windowId : String
  window : RuntimeWindow
deriving DecidableEq, Repr

/-- `WindowSkipResult` from `src/lib/window-matcher.ts`. -/
structure WindowSkipResult where
  ruleId : String
  app : String
  reason : SkipReason
deriving DecidableEq, Repr

/-- `MatchResult` from `src/lib/window-matcher.ts`. -/
structure MatchResult where
  matched : List WindowMatchResult
  skipped : List WindowSkipResult
deriving DecidableEq, Repr

/-- `appLabel` from `src/lib/window-matcher.ts`:
`rule.app.bundleId ?? rule.app.name ?? '(unknown)'`. -/
def appLabel (rule : WindowRule) : String :=
  (rule.app.bundleId.or rule.app.name).getD "(unknown)"

/-- The `sortWindows` comparator of `src/lib/window-matcher.ts` (and the
identical one in `src/lib/layout-builder.ts`), as the relation `a` may
precede `b`, i.e. the comparator value on `(a, b)` is non-positive:
ascending x, then ascending y, then id. -/
def windowLE (a b : RuntimeWindow) : Bool :=
  if a.frame.x = b.frame.x then
    if a.frame.y = b.frame.y then !strLT b.id a.id
    else decide (a.frame.y < b.frame.y)
  else decide (a.frame.x < b.frame.x)

/-- `sortWindows` from `src/lib/window-matcher.ts`. -/
def sortWindows (ws : List RuntimeWindow) : List RuntimeWindow :=
  stableSort windowLE ws

/-- The eligibility filter of `matchWindows`: standard, and not minimized
unless minimized windows are restored. -/
def eligible (restoreMinimized : Bool) (w : RuntimeWindow) : Bool :=
  w.isStandard && (!w.isMinimized || restoreMinimized)

/-- Membership of a bundle id in `knownBundleIds` (built from all windows,
before eligibility filtering). -/
def knownBundle (windows : List RuntimeWindow) (b : String) : Bool :=
  windows.any (fun w => w.app.bundleId == some b)

/-- Membership of an application name in `knownNames`. -/
def knownName (windows : List RuntimeWindow) (n : String) : Bool :=
  windows.any (fun w => w.app.name == n)

/-- The sorted per-bundle pool `poolByBundleId.get(b)`(eligible windows of
bundle `b`, in sort order). -/
def bundlePool (windows : List RuntimeWindow) (restoreMinimized : Bool)
    (b : String) : List RuntimeWindow :=
  sortWindows ((windows.filter (eligible restoreMinimized)).filter
    (fun w => w.app.bundleId == some b))

/-- The sorted per-name pool `poolByName.get(n)`. -/
def namePool (windows : List RuntimeWindow) (restoreMinimized : Bool)
    (n : String) : List RuntimeWindow :=
  sortWindows ((windows.filter (eligible restoreMinimized)).filter
    (fun w => w.app.name == n))

/-- The pool a rule resolves: by bundle id when declared, else by name; a
`Map` key is present exactly when its pool is non-empty. -/
def poolFor (windows : List RuntimeWindow) (restoreMinimized : Bool)
    (app : AppIdentity) : Option (List RuntimeWindow) :=
  match app.bundleId with
  | some b =>
    let p := bundlePool windows restoreMinimized b
    if p.isEmpty then none else some p
  | none =>
    match app.name with
    | some n =>
      let p := namePool windows restoreMinimized n
      if p.isEmpty then none else some p
    | none => none

/-- Formalization of "window `w` belongs to the rule's application": `w`
carries the rule's declared bundle identifier, or the rule's declared
application name (this is exactly the code's `known` test for one window). -/
def sharesIdentity (app : AppIdentity) (w : RuntimeWindow) : Bool :=
  (match app.bundleId with
    | some b => w.app.bundleId == some b
    | none => false) ||
  (match app.name with
    | some n => w.app.name == n
    | none => false)

/-- Whether a window matches the rule's pool key: its bundle id when the
rule declares one, otherwise its name when the rule declares one. -/
def keyMatches (app : AppIdentity) (w : RuntimeWindow) : Bool :=
  match app.bundleId with
  | some b => w.app.bundleId == some b
  | none =>
    match app.name with
    | some n => w.app.name == n
    | none => false

/-- JavaScript `xs.slice(0, l)` for a possibly negative `l`. -/
def jsSliceTo {α : Type} (l : Int) (xs : List α) : List α :=
  if 0 ≤ l then xs.take l.toNat else xs.take ((xs.length : Int) + l).toNat

/-- The loop state of `matchWindows`: the cross-rule claimed-id set and the
two result lists. -/
structure MatchState where
  claimed : List String
  matched : List WindowMatchResult
  skipped : List WindowSkipResult
deriving DecidableEq, Repr

/-- The single-window candidate selection of `matchWindows` for the
non-`all` match kinds (the `all` case never reaches this code path and
yields no candidate). -/
def ruleCandidate (regexTest : String → String → Bool) (claimed : List String)
    (pool : List RuntimeWindow) : WindowMatch → Option RuntimeWindow
  | .mainWindow =>
    match pool.find? (fun w => w.isFocused && !claimed.contains w.id) with
    | some f => some f
    | none => pool.find? (fun w => !claimed.contains w.id)
  | .byIndex i =>
    match getInt pool i with
    | some w => if claimed.contains w.id then none else some w
    | none => none
  | .byTitle pat => pool.find? (fun w => !claimed.contains w.id && regexTest pat w.title)
  | .all => none

/-- One iteration of the `matchWindows` rule loop. -/
def matchStep (regexTest : String → String → Bool) (windows : List RuntimeWindow)
    (restoreMinimized : Bool) (st : MatchState) (rule : WindowRule) : MatchState :=
  match poolFor windows restoreMinimized rule.app with
  | none =>
    let known :=
      (match rule.app.bundleId with
        | some b => knownBundle windows b
        | none => false) ||
      (match rule.app.name with
        | some n => knownName windows n
        | none => false)
    { st with skipped := st.skipped ++
        [⟨rule.id, appLabel rule, if known then .noWindows else .appNotRunning⟩] }
  | some pool =>
    if pool.isEmpty then
      { st with skipped := st.skipped ++ [⟨rule.id, appLabel rule, .noWindows⟩] }
    else
      match rule.wmatch with
      | .all =>
        let unclaimed := pool.filter (fun w => !st.claimed.contains w.id)
        let limited := match rule.limit with
          | some l => jsSliceTo l unclaimed
          | none => unclaimed
        if limited.isEmpty then
          { st with skipped := st.skipped ++ [⟨rule.id, appLabel rule, .noMatch⟩] }
        else
          { claimed := st.claimed ++ limited.map (fun w => w.id),
            matched := st.matched ++ limited.map (fun w => ⟨rule.id, w.id, w⟩),
            skipped := st.skipped }
      | m =>
        match ruleCandidate regexTest st.claimed pool m with
        | some w =>
          { claimed := st.claimed ++ [w.id],
            matched := st.matched ++ [⟨rule.id, w.id, w⟩],
            skipped := st.skipped }
        | none =>
          { st with skipped := st.skipped ++ [⟨rule.id, appLabel rule, .noMatch⟩] }

/-- `matchWindows` from `src/lib/window-matcher.ts`.  `regexTest` is the
oracle for `new RegExp(pattern).test(title)`, and `restoreMinimized` is the
(defaulted) option `options?.restoreMinimized ?? false`. -/
def matchWindows (regexTest : String → String → Bool) (rules : List WindowRule)
    (windows : List RuntimeWindow) (restoreMinimized : Bool) : MatchResult :=
  ⟨(rules.foldl (matchStep regexTest windows restoreMinimized) ⟨[], [], []⟩).matched,
   (rules.foldl (matchStep regexTest windows restoreMinimized) ⟨[], [], []⟩).skipped⟩

/-- `round4` from `src/lib/layout-builder.ts`: `Math.round(n * 10000) / 10000`. -/
def round4 (n : ℚ) : ℚ := (jsRound (n * 10000) : ℚ) / 10000

/-- `roundedNormalizedRect` from `src/lib/layout-builder.ts`. -/
def roundedNormalizedRect (r : NormalizedRect) : NormalizedRect :=
  ⟨round4 r.x, round4 r.y, round4 r.w, round4 r.h⟩

/-- A lower-case letter or digit: the characters the kebab slug keeps. -/
def isSlugChar (c : Char) : Bool :=
  (decide ('a' ≤ c) && decide (c ≤ 'z')) || c.isDigit

/-- `replace(/[^a-z0-9]+/g, '-')`: each maximal run of non-slug characters
becomes a single dash. -/
def kebabCore : List Char → List Char
  | [] => []
  | c :: cs =>
    if isSlugChar c then c :: kebabCore cs
    else
      match kebabCore cs with
      | '-' :: rest => '-' :: rest
      | rest => '-' :: rest

/-- `replace(/^-|-$/g, '')`: drop one leading and one trailing dash. -/
def stripEdgeDashes (l : List Char) : List Char :=
  let l1 := match l with
    | '-' :: rest => rest
    | other => other
  match l1.reverse with
  | '-' :: rest => rest.reverse
  | _ => l1

/-- `toKebab` from `src/lib/layout-builder.ts`: lower-case, collapse runs of
other characters to dashes, trim edge dashes. -/
def toKebab (s : String) : String :=
  ⟨stripEdgeDashes (kebabCore (s.data.map Char.toLower))⟩

/-- Decimal digits of a natural number, fuelled structurally so that the
kernel can evaluate it (`fuel > n` suffices). -/
def natToDecimalAux : Nat → Nat → List Char
  | 0, _ => []
  | fuel + 1, n =>
    if n < 10 then [Nat.digitChar n]
    else natToDecimalAux fuel (n / 10) ++ [Nat.digitChar (n % 10)]

/-- The decimal rendering of a natural number: the JavaScript template
interpolation `${idIndex}`. -/
def natToDecimal (n : Nat) : List Char := natToDecimalAux (n + 1) n

/-- A generated rule id: `` `${appSlug}-${idIndex}` ``. -/
def ruleIdOf (slug : String) (n : Nat) : String := slug ++ "-" ++ ⟨natToDecimal n⟩

/-- The builder's grouping key: `w.app.bundleId ?? w.app.name`. -/
def appKey (w : RuntimeWindow) : String := w.app.bundleId.getD w.app.name

/-- `w.app.name || 'unknown'`. -/
def jsName (w : RuntimeWindow) : String :=
  if w.app.name = "" then "unknown" else w.app.name

/-- The `screenIdToRole` map of `buildLayout`: built by insertion over the
assignment entries, so the last entry for a screen id wins. -/
def screenIdToRole (assignments : List (String × RuntimeScreen)) (sid : String) :
    Option String :=
  assignments.foldl
    (fun acc entry => if entry.2.id = sid then some entry.1 else acc) none

/-- The sorted per-app group `windowsByApp.get(key) ?? []` of `buildLayout`,
computed over the full selection. -/
def winGroup (sel : List RuntimeWindow) (key : String) : List RuntimeWindow :=
  sortWindows (sel.filter (fun w => appKey w == key))

/-- The byIndex value `buildLayout` assigns to a window: its position in its
sorted app group, or 0 when `findIndex` misses. -/
def idxVal (groupOf : String → List RuntimeWindow) (w : RuntimeWindow) : Int :=
  let g := groupOf (appKey w)
  let fi := g.findIdx (fun gw => gw.id == w.id)
  if fi < g.length then (fi : Int) else 0

/-- Whether `buildLayout` emits a rule for a window: its screen has an
assigned role, and that role looks up a screen in the assignment record. -/
def emitsRule (assignments : List (String × RuntimeScreen)) (w : RuntimeWindow) :
    Bool :=
  match screenIdToRole assignments w.screenId with
  | none => false
  | some roleName => (assignments.lookup roleName).isSome

/-- The rule-emitting loop of `buildLayout`, with the per-app id counters as
a function state. -/
def buildRulesAux (assignments : List (String × RuntimeScreen))
    (groupOf : String → List RuntimeWindow) :
    (String → Nat) → List RuntimeWindow → List WindowRule
  | _, [] => []
  | counters, w :: rest =>
    match screenIdToRole assignments w.screenId with
    | none => buildRulesAux assignments groupOf counters rest
    | some roleName =>
      match assignments.lookup roleName with
      | none => buildRulesAux assignments groupOf counters rest
      | some screen =>
        { id := ruleIdOf (toKebab (jsName w)) (counters (appKey w)),
          app := ⟨w.app.bundleId, some w.app.name⟩,
          wmatch := .byIndex (idxVal groupOf w),
          place := ⟨roleName, roundedNormalizedRect
            (absoluteToNormalized w.frame screen.frame)⟩,
          required := none, limit := none, space := none } ::
        buildRulesAux assignments groupOf
          (fun k => if k = appKey w then counters (appKey w) + 1 else counters k) rest

/-- `matcherForScreen` from `src/lib/layout-builder.ts`. -/
def matcherForScreen (screen : RuntimeScreen) : DisplayMatch :=
  if screen.isPrimary then .primary
  else if screen.isBuiltin then .builtin
  else .byName screen.name

/-- The role-ordering rank: primary first, builtin second, rest last. -/
def rankScreen (s : RuntimeScreen) : Nat :=
  if s.isPrimary then 0 else if s.isBuiltin then 1 else 2

/-- The assignment-entry comparator of `buildLayout` (rank, then
`localeCompare` modelled as lexicographic comparison), as a may-precede
relation. -/
def entryLE (a b : String × RuntimeScreen) : Bool :=
  if rankScreen a.2 = rankScreen b.2 then !strLT b.2.name a.2.name
  else decide (rankScreen a.2 < rankScreen b.2)

/-- The `Layout` document (`src/types/layout.types.ts`), restricted to the
fields `buildLayout` populates. -/
structure Layout where
  version : String
  name : String
  description : Option String
  displayRoles : List (String × DisplayRole)
  windows : List WindowRule
deriving DecidableEq, Repr

/-- `BuildLayoutParams` from `src/lib/layout-builder.ts` (the unused `dump`
is kept as its screen list). -/
structure BuildLayoutParams where
  name : String
  description : Option String
  dumpScreens : List RuntimeScreen
  selectedWindows : List RuntimeWindow
  displayRoleAssignments : List (String × RuntimeScreen)

/-- `buildLayout` from `src/lib/layout-builder.ts`. -/
def buildLayout (p : BuildLayoutParams) : Layout :=
  { version := "0.1",
    name := p.name,
    description := p.description,
    displayRoles := (stableSort entryLE p.displayRoleAssignments).map
      (fun e => (e.1, DisplayRole.mk (matcherForScreen e.2) none)),
    windows := buildRulesAux p.displayRoleAssignments
      (fun key => winGroup p.selectedWindows key) (fun _ => 0) p.selectedWindows }

/-- Fixture: a one-screen assignment target. -/
def scrC1 : RuntimeScreen :=
  ⟨"s1", "Main", false, true, ⟨0, 0, 1000, 1000⟩, ⟨0, 0, 1000, 1000⟩, 1000, 1000⟩

/-- Fixture: the unselected left window of the C1 counterexample snapshot. -/
def wC1a : RuntimeWindow :=
  ⟨"1", ⟨"App", some "com.app", 3⟩, "a", "AXWindow", true, false, false, "s1",
    ⟨0, 0, 100, 100⟩⟩

/-- Fixture: the selected right window of the C1 counterexample snapshot. -/
def wC1b : RuntimeWindow :=
  ⟨"2", ⟨"App", some "com.app", 3⟩, "b", "AXWindow", true, false, false, "s1",
    ⟨200, 0, 100, 100⟩⟩

/-- Fixture: build parameters selecting only the right window. -/
def pC1 : BuildLayoutParams := ⟨"layout", none, [scrC1], [wC1b], [("main", scrC1)]⟩

/-- Fixture: build parameters for the round-trip witness (both windows). -/
def pC1w : BuildLayoutParams := ⟨"layout", none, [scrC1], [wC1a, wC1b], [("main", scrC1)]⟩

/-- Fixture: a window of the app named "Foo" with a bundle id. -/
def wC3a : RuntimeWindow :=
  ⟨"10", ⟨"Foo", some "com.a", 1⟩, "t", "AXWindow", true, false, false, "s1",
    ⟨0, 0, 10, 10⟩⟩

/-- Fixture: a bundle-less window of a distinct app also named "Foo". -/
def wC3b : RuntimeWindow :=
  ⟨"11", ⟨"Foo", none, 2⟩, "t", "AXWindow", true, false, false, "s1",
    ⟨30, 0, 10, 10⟩⟩

/-- Fixture: build parameters with two same-slug apps. -/
def pC3 : BuildLayoutParams := ⟨"l", none, [scrC1], [wC3a, wC3b], [("main", scrC1)]⟩

/-- Fixture: a regex oracle that matches nothing. -/
def noRegex : String → String → Bool := fun _ _ => false

/-- Fixture: the Ghostty application of the repository test dump. -/
def appG : AppInfo := ⟨"Ghostty", some "com.g", 11⟩

/-- Fixture: left Ghostty window. -/
def wGa : RuntimeWindow :=
  ⟨"1", appG, "alpha", "AXWindow", true, false, false, "4", ⟨0, 0, 100, 100⟩⟩

/-- Fixture: right, focused Ghostty window. -/
def wGb : RuntimeWindow :=
  ⟨"2", appG, "beta", "AXWindow", true, false, true, "4", ⟨50, 0, 100, 100⟩⟩

/-- Fixture: a byIndex-0 rule for Ghostty. -/
def rIdx0 : WindowRule :=
  ⟨"g0", ⟨some "com.g", some "Ghostty"⟩, .byIndex 0, ⟨"main", ⟨0, 0, 1, 1⟩⟩, none, none, none⟩

/-- Fixture: a second byIndex-0 rule for the same application. -/
def rIdx0b : WindowRule :=
  ⟨"g1", ⟨some "com.g", some "Ghostty"⟩, .byIndex 0, ⟨"main", ⟨0, 0, 1, 1⟩⟩, none, none, none⟩

/-- Fixture: an `all` rule for Ghostty. -/
def rAllG : WindowRule :=
  ⟨"ga", ⟨some "com.g", some "Ghostty"⟩, .all, ⟨"main", ⟨0, 0, 1, 1⟩⟩, none, none, none⟩

/-- Fixture: two distinct windows of one app accidentally sharing id "9". -/
def wDup1 : RuntimeWindow :=
  ⟨"9", ⟨"Dup", some "com.d", 7⟩, "one", "AXWindow", true, false, false, "4", ⟨0, 0, 10, 10⟩⟩

/-- Fixture: the second window carrying the duplicated id "9". -/
def wDup2 : RuntimeWindow :=
  ⟨"9", ⟨"Dup", some "com.d", 7⟩, "two", "AXWindow", true, false, false, "4", ⟨20, 0, 10, 10⟩⟩

/-- Fixture: an `all` rule for the duplicated-id app. -/
def rAllD : WindowRule :=
  ⟨"d", ⟨some "com.d", some "Dup"⟩, .all, ⟨"main", ⟨0, 0, 1, 1⟩⟩, none, none, none⟩

/-- Fixture: the primary external 4K display of the repository test dump. -/
def scr4K : RuntimeScreen :=
  ⟨"4", "LG HDR 4K", false, true, ⟨0, 30, 3840, 2130⟩, ⟨0, 0, 3840, 2160⟩, 3840, 2160⟩

/-- Fixture: the secondary external display of the repository test dump. -/
def scrUHD : RuntimeScreen :=
  ⟨"3", "LG Ultra HD", false, false, ⟨-3840, 30, 3840, 2082⟩, ⟨-3840, 0, 3840, 2160⟩, 3840, 2160⟩

/-- Rounding half up moves a rational by at most one half. -/
theorem abs_jsRound_sub_le (t : ℚ) : |(jsRound t : ℚ) - t| ≤ 1/2 := by
  have h1 : (⌊t + 1/2⌋ : ℚ) ≤ t + 1/2 := Int.floor_le _
  have h2 : t + 1/2 < (⌊t + 1/2⌋ : ℚ) + 1 := Int.lt_floor_add_one _
  rw [abs_le]
  constructor <;> simp only [jsRound] <;> linarith

/-- Half-pixel error divided by a frame dimension of at least 500 is below 1/1000. -/
theorem abs_jsRound_div_le (t W : ℚ) (hW : 500 ≤ W) :
    |((jsRound t : ℚ) - t) / W| ≤ 1/1000 := by
  have hW0 : 0 < W := by linarith
  have h := abs_jsRound_sub_le t
  rw [abs_div, abs_of_pos hW0, div_le_iff₀ hW0]
  nlinarith [abs_nonneg ((jsRound t : ℚ) - t)]

/-- C4 (amended): converting a normalized rectangle to absolute pixels and
back recovers every component within `1/1000`, for every frame whose width
and height are at least `500`; the error is the forward rounding error of at
most half a pixel relative to the frame size. -/
theorem rectConverter_roundTrip_tolerance (r : NormalizedRect) (f : Rect)
    (hw : 500 ≤ f.w) (hh : 500 ≤ f.h) :
    |(absoluteToNormalized (normalizedToAbsolute r f) f).x - r.x| ≤ 1/1000 ∧
    |(absoluteToNormalized (normalizedToAbsolute r f) f).y - r.y| ≤ 1/1000 ∧
    |(absoluteToNormalized (normalizedToAbsolute r f) f).w - r.w| ≤ 1/1000 ∧
    |(absoluteToNormalized (normalizedToAbsolute r f) f).h - r.h| ≤ 1/1000 := by
  have hw0 : f.w ≠ 0 := by intro h; rw [h] at hw; norm_num at hw
  have hh0 : f.h ≠ 0 := by intro h; rw [h] at hh; norm_num at hh
  refine ⟨?_, ?_, ?_, ?_⟩
  · have he : (absoluteToNormalized (normalizedToAbsolute r f) f).x - r.x =
        ((jsRound (f.x + r.x * f.w) : ℚ) - (f.x + r.x * f.w)) / f.w := by
      simp only [absoluteToNormalized, normalizedToAbsolute]
      field_simp
      ring
    rw [he]; exact abs_jsRound_div_le _ _ hw
  · have he : (absoluteToNormalized (normalizedToAbsolute r f) f).y - r.y =
        ((jsRound (f.y + r.y * f.h) : ℚ) - (f.y + r.y * f.h)) / f.h := by
      simp only [absoluteToNormalized, normalizedToAbsolute]
      field_simp
      ring
    rw [he]; exact abs_jsRound_div_le _ _ hh
  · have he : (absoluteToNormalized (normalizedToAbsolute r f) f).w - r.w =
        ((jsRound (r.w * f.w) : ℚ) - r.w * f.w) / f.w := by
      simp only [absoluteToNormalized, normalizedToAbsolute]
      field_simp
      ring
    rw [he]; exact abs_jsRound_div_le _ _ hw
  · have he : (absoluteToNormalized (normalizedToAbsolute r f) f).h - r.h =
        ((jsRound (r.h * f.h) : ℚ) - r.h * f.h) / f.h := by
      simp only [absoluteToNormalized, normalizedToAbsolute]
      field_simp
      ring
    rw [he]; exact abs_jsRound_div_le _ _ hh

/-- Witness for C4: the amended theorem applied to the layout `{0.1, 0.05, 0.6, 0.9}`
on the usable frame of the fixture 4K display, `{0, 30, 3840, 2130}`. -/
theorem rectConverter_roundTrip_tolerance_witness :
    (500 ≤ (Rect.mk 0 30 3840 2130).w ∧ 500 ≤ (Rect.mk 0 30 3840 2130).h) ∧
    |(absoluteToNormalized
        (normalizedToAbsolute ⟨1/10, 1/20, 3/5, 9/10⟩ ⟨0, 30, 3840, 2130⟩)
        ⟨0, 30, 3840, 2130⟩).x - (1:ℚ)/10| ≤ 1/1000 :=
  ⟨⟨by norm_num, by norm_num⟩,
    (rectConverter_roundTrip_tolerance ⟨1/10, 1/20, 3/5, 9/10⟩ ⟨0, 30, 3840, 2130⟩
      (by norm_num) (by norm_num)).1⟩

/-- Counterexample for C4 as stated: on the non-degenerate frame
`{0, 0, 10, 10}` the rectangle `{0.05, 0, 1, 1}` comes back with an
x-error of `0.05`, far beyond the claimed `1/1000` relative tolerance. -/
theorem rectConverter_roundTrip_small_frame_cex :
    1/1000 < |(absoluteToNormalized
        (normalizedToAbsolute ⟨1/20, 0, 1, 1⟩ ⟨0, 0, 10, 10⟩)
        ⟨0, 0, 10, 10⟩).x - (1:ℚ)/20| := by
  have h : jsRound (0 + 1/20 * 10 : ℚ) = 1 := by
    simp only [jsRound]
    norm_num
  simp only [absoluteToNormalized, normalizedToAbsolute, h]
  rw [show (((1:ℤ):ℚ) - 0) / 10 - 1/20 = 1/20 from by push_cast; norm_num]
  rw [abs_of_pos (by norm_num : (0:ℚ) < 1/20)]
  norm_num

/-- `orderedInsert` is the insertion permutation. -/
theorem orderedInsert_perm {α : Type} (le : α → α → Bool) (x : α) :
    ∀ l : List α, (orderedInsert le x l).Perm (x :: l) := by
  intro l
  induction l with
  | nil => simp [orderedInsert]
  | cons y ys ih =>
    rw [orderedInsert]
    split
    · exact List.Perm.refl _
    · exact List.Perm.trans (List.Perm.cons y ih) (List.Perm.swap x y ys)

/-- `stableSort` permutes its input. -/
theorem stableSort_perm {α : Type} (le : α → α → Bool) :
    ∀ l : List α, (stableSort le l).Perm l := by
  intro l
  induction l with
  | nil => exact List.Perm.refl _
  | cons x xs ih =>
    exact List.Perm.trans (orderedInsert_perm le x (stableSort le xs))
      (List.Perm.cons x ih)

/-- The fold behind `largestExternal` picks the earliest maximal-area member:
everything before it is strictly smaller, everything after it is no larger. -/
theorem pickLargest_split :
    ∀ (l : List RuntimeScreen) (b : RuntimeScreen),
    ∃ pre post, b :: l = pre ++ pickLargest b l :: post ∧
      (∀ t ∈ pre, area t.fullFrame < area (pickLargest b l).fullFrame) ∧
      (∀ t ∈ post, area t.fullFrame ≤ area (pickLargest b l).fullFrame) := by
  intro l
  induction l with
  | nil =>
    intro b
    exact ⟨[], [], rfl, by simp, by simp⟩
  | cons s rest ih =>
    intro b
    by_cases hc : area b.fullFrame < area s.fullFrame
    · have hstep : pickLargest b (s :: rest) = pickLargest s rest := by
        simp [pickLargest, List.foldl_cons, hc]
      obtain ⟨pre, post, heq, hpre, hpost⟩ := ih s
      have hsr : area s.fullFrame ≤ area (pickLargest s rest).fullFrame := by
        cases pre with
        | nil =>
          simp only [List.nil_append] at heq
          rw [List.cons.injEq] at heq
          rw [← heq.1]
        | cons p pre' =>
          have hp : s = p := by
            have := heq
            simp only [List.cons_append, List.cons.injEq] at this
            exact this.1
          exact le_of_lt (hpre s (by rw [hp]; exact List.mem_cons_self p pre'))
      refine ⟨b :: pre, post, ?_, ?_, ?_⟩
      · rw [hstep, List.cons_append, ← heq]
      · intro t ht
        rcases List.mem_cons.mp ht with h | h
        · rw [h, hstep]; exact lt_of_lt_of_le hc hsr
        · rw [hstep]; exact hpre t h
      · intro t ht
        rw [hstep]; exact hpost t ht
    · have hstep : pickLargest b (s :: rest) = pickLargest b rest := by
        simp [pickLargest, List.foldl_cons, hc]
      obtain ⟨pre, post, heq, hpre, hpost⟩ := ih b
      have hsb : area s.fullFrame ≤ area b.fullFrame := le_of_not_lt hc
      cases pre with
      | nil =>
        simp only [List.nil_append] at heq
        rw [List.cons.injEq] at heq
        have hres : pickLargest b (s :: rest) = b := by rw [hstep, ← heq.1]
        refine ⟨[], s :: post, ?_, by simp, ?_⟩
        · rw [hres, List.nil_append, heq.2]
        · intro t ht
          rw [hres]
          rcases List.mem_cons.mp ht with h | h
          · rw [h]; exact hsb
          · have h2 := hpost t h
            rw [← heq.1] at h2
            exact h2
      | cons p pre' =>
        have hp : b = p ∧ rest = pre' ++ pickLargest b rest :: post := by
          have h2 := heq
          simp only [List.cons_append, List.cons.injEq] at h2
          exact h2
        have hbr : area b.fullFrame < area (pickLargest b rest).fullFrame :=
          hpre b (by rw [hp.1]; exact List.mem_cons_self p pre')
        refine ⟨b :: s :: pre', post, ?_, ?_, ?_⟩
        · rw [hstep, List.cons_append, List.cons_append, ← hp.2]
        · intro t ht
          rw [hstep]
          rcases List.mem_cons.mp ht with h | h
          · rw [h]; exact hbr
          rcases List.mem_cons.mp h with h' | h'
          · rw [h']; exact lt_of_le_of_lt hsb hbr
          · exact hpre t (List.mem_cons_of_mem p h')
        · intro t ht
          rw [hstep]; exact hpost t ht

/-- The fold behind `smallestExternal` picks the latest minimal-area member:
everything before it is no smaller, everything after it is strictly larger. -/
theorem pickSmallest_split :
    ∀ (l : List RuntimeScreen) (b : RuntimeScreen),
    ∃ pre post, b :: l = pre ++ pickSmallest b l :: post ∧
      (∀ t ∈ pre, area (pickSmallest b l).fullFrame ≤ area t.fullFrame) ∧
      (∀ t ∈ post, area (pickSmallest b l).fullFrame < area t.fullFrame) := by
  intro l
  induction l with
  | nil =>
    intro b
    exact ⟨[], [], rfl, by simp, by simp⟩
  | cons s rest ih =>
    intro b
    by_cases hc : area s.fullFrame ≤ area b.fullFrame
    · have hstep : pickSmallest b (s :: rest) = pickSmallest s rest := by
        simp [pickSmallest, List.foldl_cons, hc]
      obtain ⟨pre, post, heq, hpre, hpost⟩ := ih s
      have hrs : area (pickSmallest s rest).fullFrame ≤ area s.fullFrame := by
        cases pre with
        | nil =>
          simp only [List.nil_append] at heq
          rw [List.cons.injEq] at heq
          rw [← heq.1]
        | cons p pre' =>
          have hp : s = p := by
            have := heq
            simp only [List.cons_append, List.cons.injEq] at this
            exact this.1
          exact hpre s (by rw [hp]; exact List.mem_cons_self p pre')
      refine ⟨b :: pre, post, ?_, ?_, ?_⟩
      · rw [hstep, List.cons_append, ← heq]
      · intro t ht
        rcases List.mem_cons.mp ht with h | h
        · rw [h, hstep]; exact le_trans hrs hc
        · rw [hstep]; exact hpre t h
      · intro t ht
        rw [hstep]; exact hpost t ht
    · have hstep : pickSmallest b (s :: rest) = pickSmallest b rest := by
        simp [pickSmallest, List.foldl_cons, hc]
      obtain ⟨pre, post, heq, hpre, hpost⟩ := ih b
      have hbs : area b.fullFrame < area s.fullFrame := lt_of_not_le hc
      cases pre with
      | nil =>
        simp only [List.nil_append] at heq
        rw [List.cons.injEq] at heq
        have hres : pickSmallest b (s :: rest) = b := by rw [hstep, ← heq.1]
        refine ⟨[], s :: post, ?_, by simp, ?_⟩
        · rw [hres, List.nil_append, heq.2]
        · intro t ht
          rw [hres]
          rcases List.mem_cons.mp ht with h | h
          · rw [h]; exact hbs
          · have h2 := hpost t h
            rw [← heq.1] at h2
            exact h2
      | cons p pre' =>
        have hp : b = p ∧ rest = pre' ++ pickSmallest b rest :: post := by
          have h2 := heq
          simp only [List.cons_append, List.cons.injEq] at h2
          exact h2
        have hrb : area (pickSmallest b rest).fullFrame ≤ area b.fullFrame :=
          hpre b (by rw [hp.1]; exact List.mem_cons_self p pre')
        refine ⟨b :: s :: pre', post, ?_, ?_, ?_⟩
        · rw [hstep, List.cons_append, List.cons_append, ← hp.2]
        · intro t ht
          rw [hstep]
          rcases List.mem_cons.mp ht with h | h
          · rw [h]; exact hrb
          rcases List.mem_cons.mp h with h' | h'
          · rw [h']; exact le_of_lt (lt_of_le_of_lt hrb hbs)
          · exact hpre t (List.mem_cons_of_mem p h')
        · intro t ht
          rw [hstep]; exact hpost t ht

/-- C7: on a pool with at least one non-builtin member, `largestExternal`
selects the non-builtin member of maximum full-frame area, ties broken in
favour of the earliest pool member (everything before it in the external
sub-pool is strictly smaller), and `smallestExternal` selects the one of
minimum full-frame area, ties broken in favour of the latest pool member
(everything after it is strictly larger). -/
theorem matchScreen_largest_smallest_spec (pool : List RuntimeScreen)
    (hne : pool.filter (fun t => !t.isBuiltin) ≠ []) :
    (∃ s pre post, matchScreen .largestExternal pool = some s ∧
      pool.filter (fun t => !t.isBuiltin) = pre ++ s :: post ∧
      (∀ t ∈ pre, area t.fullFrame < area s.fullFrame) ∧
      (∀ t ∈ post, area t.fullFrame ≤ area s.fullFrame)) ∧
    (∃ s pre post, matchScreen .smallestExternal pool = some s ∧
      pool.filter (fun t => !t.isBuiltin) = pre ++ s :: post ∧
      (∀ t ∈ pre, area s.fullFrame ≤ area t.fullFrame) ∧
      (∀ t ∈ post, area s.fullFrame < area t.fullFrame)) := by
  cases hfl : pool.filter (fun t => !t.isBuiltin) with
  | nil => exact absurd hfl hne
  | cons b rest =>
    constructor
    · obtain ⟨pre, post, heq, hpre, hpost⟩ := pickLargest_split rest b
      refine ⟨pickLargest b rest, pre, post, ?_, heq, hpre, hpost⟩
      rw [matchScreen, hfl]
    · obtain ⟨pre, post, heq, hpre, hpost⟩ := pickSmallest_split rest b
      refine ⟨pickSmallest b rest, pre, post, ?_, heq, hpre, hpost⟩
      rw [matchScreen, hfl]

/-- Witness for C7: the theorem applied to the two-external fixture pool,
whose members tie on full-frame area. -/
theorem matchScreen_largest_smallest_spec_witness :
    [scr4K, scrUHD].filter (fun t => !t.isBuiltin) ≠ [] ∧
    ((∃ s pre post, matchScreen .largestExternal [scr4K, scrUHD] = some s ∧
      [scr4K, scrUHD].filter (fun t => !t.isBuiltin) = pre ++ s :: post ∧
      (∀ t ∈ pre, area t.fullFrame < area s.fullFrame) ∧
      (∀ t ∈ post, area t.fullFrame ≤ area s.fullFrame)) ∧
    (∃ s pre post, matchScreen .smallestExternal [scr4K, scrUHD] = some s ∧
      [scr4K, scrUHD].filter (fun t => !t.isBuiltin) = pre ++ s :: post ∧
      (∀ t ∈ pre, area s.fullFrame ≤ area t.fullFrame) ∧
      (∀ t ∈ post, area s.fullFrame < area t.fullFrame))) :=
  ⟨by decide, matchScreen_largest_smallest_spec [scr4K, scrUHD] (by decide)⟩

/-- `matchScreen` only ever returns a member of the pool it was given. -/
theorem matchScreen_mem {m : DisplayMatch} {pool : List RuntimeScreen}
    {s : RuntimeScreen} (h : matchScreen m pool = some s) : s ∈ pool := by
  cases m with
  | builtin => exact List.mem_of_find?_eq_some h
  | primary => exact List.mem_of_find?_eq_some h
  | byName n => exact List.mem_of_find?_eq_some h
  | largestExternal =>
    rw [matchScreen] at h
    cases hfl : pool.filter (fun t => !t.isBuiltin) with
    | nil => rw [hfl] at h; simp at h
    | cons b rest =>
      rw [hfl] at h
      simp only [Option.some.injEq] at h
      obtain ⟨pre, post, heq, -, -⟩ := pickLargest_split rest b
      have hmem : s ∈ pool.filter (fun t => !t.isBuiltin) := by
        rw [hfl, heq, ← h]
        exact List.mem_append_right _ (List.mem_cons_self _ _)
      exact List.mem_of_mem_filter hmem
  | smallestExternal =>
    rw [matchScreen] at h
    cases hfl : pool.filter (fun t => !t.isBuiltin) with
    | nil => rw [hfl] at h; simp at h
    | cons b rest =>
      rw [hfl] at h
      simp only [Option.some.injEq] at h
      obtain ⟨pre, post, heq, -, -⟩ := pickSmallest_split rest b
      have hmem : s ∈ pool.filter (fun t => !t.isBuiltin) := by
        rw [hfl, heq, ← h]
        exact List.mem_append_right _ (List.mem_cons_self _ _)
      exact List.mem_of_mem_filter hmem
  | externalByIndex i =>
    rw [matchScreen, getInt] at h
    split at h
    · obtain ⟨hlt, hget⟩ := List.getElem?_eq_some_iff.mp h
      have hmem : s ∈ stableSort (fun x y => decide (area y.fullFrame ≤ area x.fullFrame))
          (pool.filter (fun t => !t.isBuiltin)) := by
        rw [← hget]
        exact List.getElem_mem hlt
      have := (stableSort_perm _ _).mem_iff.mp hmem
      exact List.mem_of_mem_filter this
    · exact absurd h (by simp)

/-- A successful association-list lookup exhibits a binding. -/
theorem lookup_mem {β : Type} {l : List (String × β)} {k : String} {v : β}
    (h : l.lookup k = some v) : (k, v) ∈ l := by
  induction l with
  | nil => simp [List.lookup] at h
  | cons p rest ih =>
    obtain ⟨a, b⟩ := p
    rw [List.lookup] at h
    cases hk : (k == a) with
    | true =>
      rw [hk] at h
      simp only [Option.some.injEq] at h
      rw [← h, eq_of_beq hk]
      exact List.mem_cons_self _ _
    | false =>
      rw [hk] at h
      exact List.mem_cons_of_mem _ (ih h)

/-- Every screen the resolver loop records comes from the original snapshot. -/
theorem resolveAux_mem_screens (screens : List RuntimeScreen) :
    ∀ (roles : List (String × DisplayRole)) (acc : List (String × Option RuntimeScreen))
      (pool : List RuntimeScreen),
      (∀ e ∈ acc, ∀ s, e.2 = some s → s ∈ screens) →
      (∀ x ∈ pool, x ∈ screens) →
      ∀ e ∈ (resolveAux (acc, pool) roles).1, ∀ s, e.2 = some s → s ∈ screens := by
  intro roles
  induction roles with
  | nil => intro acc pool hacc _ e he; exact hacc e he
  | cons role rest ih =>
    intro acc pool hacc hpool
    have hunf : resolveAux (acc, pool) (role :: rest)
        = resolveAux (resolveStep (acc, pool) role) rest := by
      rw [resolveAux, resolveAux, List.foldl_cons]
    rw [hunf]
    cases hm : matchScreen role.2.dmatch pool with
    | none =>
      cases hf : role.2.fallback with
      | none =>
        have hst : resolveStep (acc, pool) role = (acc ++ [(role.1, none)], pool) := by
          rw [resolveStep, hm, hf]
        rw [hst]
        apply ih
        · intro e he s hs
          rcases List.mem_append.mp he with ha | hb
          · exact hacc e ha s hs
          · simp only [List.mem_singleton] at hb
            rw [hb] at hs
            simp at hs
        · exact hpool
      | some fb =>
        have hst : resolveStep (acc, pool) role
            = (acc ++ [(role.1, (acc.lookup fb).join)], pool) := by
          rw [resolveStep, hm, hf]
        rw [hst]
        apply ih
        · intro e he s hs
          rcases List.mem_append.mp he with ha | hb
          · exact hacc e ha s hs
          · simp only [List.mem_singleton] at hb
            rw [hb] at hs
            simp only at hs
            have hl : acc.lookup fb = some (some s) := by
              cases hl : acc.lookup fb with
              | none => rw [hl] at hs; simp [Option.join] at hs
              | some v =>
                rw [hl] at hs
                simp [Option.join] at hs
                rw [hs]
            exact hacc _ (lookup_mem hl) s rfl
        · exact hpool
    | some s =>
      have hst : resolveStep (acc, pool) role = (acc ++ [(role.1, some s)], pool.erase s) := by
        rw [resolveStep, hm]
      rw [hst]
      apply ih
      · intro e he t ht
        rcases List.mem_append.mp he with ha | hb
        · exact hacc e ha t ht
        · simp only [List.mem_singleton] at hb
          rw [hb] at ht
          simp only [Option.some.injEq] at ht
          rw [← ht]
          exact hpool s (matchScreen_mem hm)
      · intro x hx
        exact hpool x (List.mem_of_mem_erase hx)

/-- In a fallback-free role map every recorded screen was claimed from the
then-current pool, so distinct entries never share a screen. -/
theorem resolveAux_pairwise (screens : List RuntimeScreen) (hnd : screens.Nodup) :
    ∀ (roles : List (String × DisplayRole)) (acc : List (String × Option RuntimeScreen))
      (pool : List RuntimeScreen),
      (∀ r ∈ roles, r.2.fallback = none) →
      pool.Sublist screens →
      (∀ e ∈ acc, ∀ s, e.2 = some s → s ∉ pool) →
      acc.Pairwise (fun e₁ e₂ => ∀ s, e₁.2 = some s → e₂.2 ≠ some s) →
      (resolveAux (acc, pool) roles).1.Pairwise
        (fun e₁ e₂ => ∀ s, e₁.2 = some s → e₂.2 ≠ some s) := by
  intro roles
  induction roles with
  | nil => intro acc pool _ _ _ hpw; exact hpw
  | cons role rest ih =>
    intro acc pool hfb hsub hclaim hpw
    have hunf : resolveAux (acc, pool) (role :: rest)
        = resolveAux (resolveStep (acc, pool) role) rest := by
      rw [resolveAux, resolveAux, List.foldl_cons]
    rw [hunf]
    have hfbtail : ∀ r ∈ rest, r.2.fallback = none :=
      fun r hr => hfb r (List.mem_cons_of_mem _ hr)
    cases hm : matchScreen role.2.dmatch pool with
    | none =>
      have hf : role.2.fallback = none := hfb role (List.mem_cons_self _ _)
      have hst : resolveStep (acc, pool) role = (acc ++ [(role.1, none)], pool) := by
        rw [resolveStep, hm, hf]
      rw [hst]
      apply ih _ _ hfbtail hsub
      · intro e he s hs
        rcases List.mem_append.mp he with ha | hb
        · exact hclaim e ha s hs
        · simp only [List.mem_singleton] at hb
          rw [hb] at hs
          simp at hs
      · rw [List.pairwise_append]
        refine ⟨hpw, List.pairwise_singleton _ _, ?_⟩
        intro e he e' he' s hs
        simp only [List.mem_singleton] at he'
        rw [he']
        simp
    | some s =>
      have hst : resolveStep (acc, pool) role = (acc ++ [(role.1, some s)], pool.erase s) := by
        rw [resolveStep, hm]
      rw [hst]
      have hpoolnd : pool.Nodup := hsub.nodup hnd
      have hsmem : s ∈ pool := matchScreen_mem hm
      apply ih _ _ hfbtail ((List.erase_sublist s pool).trans hsub)
      · intro e he t ht
        rcases List.mem_append.mp he with ha | hb
        · intro hmem
          exact hclaim e ha t ht (List.mem_of_mem_erase hmem)
        · simp only [List.mem_singleton] at hb
          rw [hb] at ht
          simp only [Option.some.injEq] at ht
          rw [← ht]
          intro hmem
          exact absurd rfl ((hpoolnd.mem_erase_iff.mp hmem).1)
      · rw [List.pairwise_append]
        refine ⟨hpw, List.pairwise_singleton _ _, ?_⟩
        intro e he e' he' t ht
        simp only [List.mem_singleton] at he'
        rw [he']
        simp only [ne_eq, Option.some.injEq]
        intro hts
        exact hclaim e he t ht (hts ▸ hsmem)

/-- C2 (amended): every screen a role resolves to is a member of the given
screen list; and — provided the snapshot screens are pairwise distinct and no
role declares a fallback — no screen is the resolution of more than one role.
(With fallbacks, a role whose matcher fails deliberately adopts the
already-resolved screen of its fallback role, so two roles may share one
screen; the counterexample exhibits this.) -/
theorem resolveDisplayRoles_claims_once (roles : List (String × DisplayRole))
    (screens : List RuntimeScreen) :
    (∀ e ∈ resolveDisplayRoles roles screens, ∀ s, e.2 = some s → s ∈ screens) ∧
    (screens.Nodup → (∀ r ∈ roles, r.2.fallback = none) →
      (resolveDisplayRoles roles screens).Pairwise
        (fun e₁ e₂ => ∀ s, e₁.2 = some s → e₂.2 ≠ some s)) :=
  ⟨resolveAux_mem_screens screens roles [] screens (by simp) (fun _ hx => hx),
   fun hnd hfb => resolveAux_pairwise screens hnd roles [] screens hfb
     (List.Sublist.refl _) (by simp) List.Pairwise.nil⟩

/-- Witness for C2: two fallback-free roles against the two-screen fixture
pool; the primary role claims the 4K display and the second role gets the
remaining screen, with no sharing. -/
theorem resolveDisplayRoles_claims_once_witness :
    ([scr4K, scrUHD].Nodup ∧
      (∀ r ∈ [("a", DisplayRole.mk .primary none), ("b", DisplayRole.mk .builtin none)],
        r.2.fallback = none)) ∧
    ((∀ e ∈ resolveDisplayRoles
        [("a", DisplayRole.mk .primary none), ("b", DisplayRole.mk .builtin none)]
        [scr4K, scrUHD], ∀ s, e.2 = some s → s ∈ [scr4K, scrUHD]) ∧
      (resolveDisplayRoles
        [("a", DisplayRole.mk .primary none), ("b", DisplayRole.mk .builtin none)]
        [scr4K, scrUHD]).Pairwise
        (fun e₁ e₂ => ∀ s, e₁.2 = some s → e₂.2 ≠ some s)) :=
  ⟨⟨by decide, by decide⟩,
    ⟨(resolveDisplayRoles_claims_once _ _).1,
      (resolveDisplayRoles_claims_once _ _).2 (by decide) (by decide)⟩⟩

/-- Counterexample for C2 as stated: role `a` matches the primary fixture
screen and role `b`, whose own matcher fails, adopts `a`'s screen through its
fallback — the same screen is the resolution of the two distinct roles. -/
theorem resolveDisplayRoles_fallback_shares_screen_cex :
    ("a", some scr4K) ∈ resolveDisplayRoles
      [("a", DisplayRole.mk .primary none), ("b", DisplayRole.mk .builtin (some "a"))]
      [scr4K] ∧
    ("b", some scr4K) ∈ resolveDisplayRoles
      [("a", DisplayRole.mk .primary none), ("b", DisplayRole.mk .builtin (some "a"))]
      [scr4K] ∧
    "a" ≠ "b" := by
  refine ⟨?_, ?_, by decide⟩ <;> decide

/-- Keys absent from an association list do not look up. -/
theorem lookup_eq_none_of_not_mem_keys {β : Type} {l : List (String × β)} {k : String}
    (h : k ∉ l.map Prod.fst) : l.lookup k = none := by
  rw [List.lookup_eq_none_iff]
  intro p hp
  simp only [bne_iff_ne, ne_eq]
  intro hk
  exact h (hk ▸ List.mem_map_of_mem Prod.fst hp)

/-- Each resolver step appends exactly one entry, keyed by its role name. -/
theorem resolveStep_shape (st : List (String × Option RuntimeScreen) × List RuntimeScreen)
    (r : String × DisplayRole) :
    ∃ v pool', resolveStep st r = (st.1 ++ [(r.1, v)], pool') := by
  rw [resolveStep]
  cases matchScreen r.2.dmatch st.2 with
  | some s => exact ⟨some s, _, rfl⟩
  | none =>
    cases r.2.fallback with
    | some fb => exact ⟨_, _, rfl⟩
    | none => exact ⟨none, _, rfl⟩

/-- The resolver loop only appends entries, one per processed role, in order. -/
theorem resolveAux_ext :
    ∀ (roles : List (String × DisplayRole))
      (st : List (String × Option RuntimeScreen) × List RuntimeScreen),
    ∃ ext, (resolveAux st roles).1 = st.1 ++ ext ∧
      ext.map Prod.fst = roles.map Prod.fst := by
  intro roles
  induction roles with
  | nil => intro st; exact ⟨[], by simp [resolveAux], by simp⟩
  | cons r rest ih =>
    intro st
    obtain ⟨v, pool', hst⟩ := resolveStep_shape st r
    obtain ⟨ext, hext, hkeys⟩ := ih (resolveStep st r)
    refine ⟨(r.1, v) :: ext, ?_, ?_⟩
    · rw [show resolveAux st (r :: rest) = resolveAux (resolveStep st r) rest from by
        rw [resolveAux, resolveAux, List.foldl_cons]]
      rw [hext, hst]
      simp
    · simp [hkeys]

/-- A hit in the first half of an appended association list is final. -/
theorem lookup_append_some {β : Type} {l₁ l₂ : List (String × β)} {k : String} {v : β}
    (h : l₁.lookup k = some v) : (l₁ ++ l₂).lookup k = some v := by
  rw [List.lookup_append, h]
  rfl

/-- A miss in the first half of an appended association list defers. -/
theorem lookup_append_none {β : Type} {l₁ l₂ : List (String × β)} {k : String}
    (h : l₁.lookup k = none) : (l₁ ++ l₂).lookup k = l₂.lookup k := by
  rw [List.lookup_append, h]
  rfl

/-- C6: in any role map in which role `a` (with arbitrary earlier roles `pre`)
declares fallback `b`, where `b` is declared only later (after the
intermediate roles `mid`), and `a`'s own matcher fails against the pool at
`a`'s turn, `a` resolves to none — forward references are never honoured, no
matter whether `b`'s own matcher later succeeds or fails; and in the circular
case — `b` falls back to `a` and `b`'s own matcher fails at `b`'s turn — `b`
also resolves to none.  Both outcomes are ordinary values of the total
function `resolveDisplayRoles`: no exception exists. -/
theorem resolveDisplayRoles_forward_circular_fallback
    (screens : List RuntimeScreen) (pre mid suf : List (String × DisplayRole))
    (a b : String) (ma mb : DisplayMatch) (fbB : Option String)
    (hab : a ≠ b)
    (haPre : a ∉ pre.map Prod.fst)
    (hbPre : b ∉ pre.map Prod.fst)
    (hbMid : b ∉ mid.map Prod.fst)
    (hma : matchScreen ma (resolveAux ([], screens) pre).2 = none) :
    ((resolveDisplayRoles (pre ++ ((a, ⟨ma, some b⟩) :: (mid ++ (b, ⟨mb, fbB⟩) :: suf)))
        screens).lookup a = some none) ∧
    (fbB = some a →
      matchScreen mb
        (resolveAux ([], screens) (pre ++ (a, ⟨ma, some b⟩) :: mid)).2 = none →
      (resolveDisplayRoles (pre ++ ((a, ⟨ma, some b⟩) :: (mid ++ (b, ⟨mb, fbB⟩) :: suf)))
          screens).lookup b = some none) := by
  have hfold_append : ∀ (l₁ l₂ : List (String × DisplayRole)) st,
      resolveAux st (l₁ ++ l₂) = resolveAux (resolveAux st l₁) l₂ := by
    intro l₁ l₂ st
    rw [resolveAux, resolveAux, resolveAux, List.foldl_append]
  have hfold_cons : ∀ (r : String × DisplayRole) (l : List (String × DisplayRole)) st,
      resolveAux st (r :: l) = resolveAux (resolveStep st r) l := by
    intro r l st
    rw [resolveAux, resolveAux, List.foldl_cons]
  obtain ⟨ext1, hext1, hkeys1⟩ := resolveAux_ext pre ([], screens)
  simp only [List.nil_append] at hext1
  -- a's step: the matcher fails, the forward fallback looks up nothing.
  have hstep_a : resolveStep (resolveAux ([], screens) pre) (a, ⟨ma, some b⟩)
      = ((resolveAux ([], screens) pre).1 ++ [(a, none)],
         (resolveAux ([], screens) pre).2) := by
    rw [resolveStep]
    simp only
    rw [hma]
    have hlb : (resolveAux ([], screens) pre).1.lookup b = none := by
      apply lookup_eq_none_of_not_mem_keys
      rw [hext1, hkeys1]
      exact hbPre
    rw [hlb]
    rfl
  have hlook_mid_a : ((resolveAux ([], screens) pre).1 ++ [(a, none)]).lookup a
      = some none := by
    have hla : (resolveAux ([], screens) pre).1.lookup a = none := by
      apply lookup_eq_none_of_not_mem_keys
      rw [hext1, hkeys1]
      exact haPre
    rw [lookup_append_none hla]
    simp [List.lookup]
  -- The run after a's step, with a bound to none.
  have hrunA : resolveDisplayRoles
      (pre ++ ((a, ⟨ma, some b⟩) :: (mid ++ (b, ⟨mb, fbB⟩) :: suf))) screens
      = (resolveAux ((resolveAux ([], screens) pre).1 ++ [(a, none)],
          (resolveAux ([], screens) pre).2) (mid ++ (b, ⟨mb, fbB⟩) :: suf)).1 := by
    rw [resolveDisplayRoles, hfold_append, hfold_cons, hstep_a]
  constructor
  · obtain ⟨extR, hextR, -⟩ := resolveAux_ext (mid ++ (b, ⟨mb, fbB⟩) :: suf)
      ((resolveAux ([], screens) pre).1 ++ [(a, none)], (resolveAux ([], screens) pre).2)
    rw [hrunA, hextR]
    exact lookup_append_some hlook_mid_a
  · intro hfb hmb
    subst hfb
    -- b's step: its matcher fails at its turn, and its fallback a is none.
    have hmid : resolveAux ([], screens) (pre ++ (a, ⟨ma, some b⟩) :: mid)
        = resolveAux ((resolveAux ([], screens) pre).1 ++ [(a, none)],
            (resolveAux ([], screens) pre).2) mid := by
      rw [hfold_append, hfold_cons, hstep_a]
    obtain ⟨ext3, hext3, hkeys3⟩ := resolveAux_ext mid
      ((resolveAux ([], screens) pre).1 ++ [(a, none)], (resolveAux ([], screens) pre).2)
    have hmb2 : matchScreen mb (resolveAux ((resolveAux ([], screens) pre).1 ++ [(a, none)],
        (resolveAux ([], screens) pre).2) mid).2 = none := by
      rw [← hmid]
      exact hmb
    have hlookA3 : (resolveAux ((resolveAux ([], screens) pre).1 ++ [(a, none)],
        (resolveAux ([], screens) pre).2) mid).1.lookup a = some none := by
      rw [hext3]
      exact lookup_append_some hlook_mid_a
    have hstep_b : resolveStep (resolveAux ((resolveAux ([], screens) pre).1 ++ [(a, none)],
        (resolveAux ([], screens) pre).2) mid) (b, ⟨mb, some a⟩)
        = ((resolveAux ((resolveAux ([], screens) pre).1 ++ [(a, none)],
            (resolveAux ([], screens) pre).2) mid).1 ++ [(b, none)],
           (resolveAux ((resolveAux ([], screens) pre).1 ++ [(a, none)],
            (resolveAux ([], screens) pre).2) mid).2) := by
      rw [resolveStep]
      simp only
      rw [hmb2, hlookA3]
      rfl
    have hlookB3 : (resolveAux ((resolveAux ([], screens) pre).1 ++ [(a, none)],
        (resolveAux ([], screens) pre).2) mid).1.lookup b = none := by
      rw [hext3]
      have h1 : ((resolveAux ([], screens) pre).1 ++ [(a, none)]).lookup b = none := by
        have hlb : (resolveAux ([], screens) pre).1.lookup b = none := by
          apply lookup_eq_none_of_not_mem_keys
          rw [hext1, hkeys1]
          exact hbPre
        rw [lookup_append_none hlb]
        have hba : (b == a) = false := beq_eq_false_iff_ne.mpr (Ne.symm hab)
        simp [List.lookup, hba]
      rw [lookup_append_none h1]
      apply lookup_eq_none_of_not_mem_keys
      rw [hkeys3]
      exact hbMid
    obtain ⟨ext5, hext5, -⟩ := resolveAux_ext suf
      ((resolveAux ((resolveAux ([], screens) pre).1 ++ [(a, none)],
          (resolveAux ([], screens) pre).2) mid).1 ++ [(b, none)],
       (resolveAux ((resolveAux ([], screens) pre).1 ++ [(a, none)],
          (resolveAux ([], screens) pre).2) mid).2)
    have hfinal : resolveDisplayRoles
        (pre ++ ((a, ⟨ma, some b⟩) :: (mid ++ (b, ⟨mb, some a⟩) :: suf))) screens
        = ((resolveAux ((resolveAux ([], screens) pre).1 ++ [(a, none)],
            (resolveAux ([], screens) pre).2) mid).1 ++ [(b, none)]) ++ ext5 := by
      rw [hrunA, hfold_append, hfold_cons, hstep_b]
      exact hext5
    rw [hfinal]
    apply lookup_append_some
    rw [lookup_append_none hlookB3]
    simp [List.lookup]

/-- Witness for C6: the two-role circular map `a→b, b→a` with failing
matchers (no builtin screen exists in the empty snapshot): both roles
resolve to none. -/
theorem resolveDisplayRoles_forward_circular_fallback_witness :
    ((resolveDisplayRoles [("a", ⟨.builtin, some "b"⟩), ("b", ⟨.builtin, some "a"⟩)]
        []).lookup "a" = some none) ∧
    ((resolveDisplayRoles [("a", ⟨.builtin, some "b"⟩), ("b", ⟨.builtin, some "a"⟩)]
        []).lookup "b" = some none) :=
  have h := resolveDisplayRoles_forward_circular_fallback [] [] [] [] "a" "b"
    .builtin .builtin (some "a") (by decide) (by simp) (by simp) (by simp) rfl
  ⟨h.1, h.2 rfl rfl⟩

/-- `sortWindows` permutes its input. -/
theorem sortWindows_perm (ws : List RuntimeWindow) : (sortWindows ws).Perm ws :=
  stableSort_perm windowLE ws

/-- Sorting keeps window ids duplicate-free. -/
theorem sortWindows_ids_nodup {ws : List RuntimeWindow}
    (h : (ws.map (fun w => w.id)).Nodup) :
    ((sortWindows ws).map (fun w => w.id)).Nodup :=
  (((sortWindows_perm ws).map (fun w => w.id)).nodup_iff).mpr h

/-- Decomposition of a successful pool lookup: the pool is the sorted,
eligibility-filtered, key-filtered window list, and it is non-empty. -/
theorem poolFor_cases {windows : List RuntimeWindow} {restore : Bool}
    {app : AppIdentity} {pool : List RuntimeWindow}
    (hp : poolFor windows restore app = some pool) :
    ∃ p : RuntimeWindow → Bool,
      pool = sortWindows ((windows.filter (eligible restore)).filter p) ∧
      pool ≠ [] ∧ ∀ v, p v = keyMatches app v := by
  rw [poolFor] at hp
  cases hb : app.bundleId with
  | some b =>
    simp only [hb] at hp
    split at hp
    · simp at hp
    · rename_i hne
      rw [Option.some.injEq] at hp
      refine ⟨fun v => v.app.bundleId == some b, hp.symm, ?_, fun v => by rw [keyMatches, hb]⟩
      rw [← hp]
      intro hnil
      exact hne (by rw [hnil]; rfl)
  | none =>
    cases hn : app.name with
    | some n =>
      simp only [hb, hn] at hp
      split at hp
      · simp at hp
      · rename_i hne
        rw [Option.some.injEq] at hp
        refine ⟨fun v => v.app.name == n, hp.symm, ?_, fun v => by rw [keyMatches, hb, hn]⟩
        rw [← hp]
        intro hnil
        exact hne (by rw [hnil]; rfl)
    | none =>
      simp only [hb, hn] at hp
      exact absurd hp (by simp)

/-- A pool returned by `poolFor` is never empty. -/
theorem poolFor_ne_nil {windows : List RuntimeWindow} {restore : Bool}
    {app : AppIdentity} {pool : List RuntimeWindow}
    (hp : poolFor windows restore app = some pool) : pool ≠ [] :=
  (poolFor_cases hp).choose_spec.2.1

/-- Every pool member is an eligible snapshot window matching the rule's
pool key. -/
theorem poolFor_member {windows : List RuntimeWindow} {restore : Bool}
    {app : AppIdentity} {pool : List RuntimeWindow}
    (hp : poolFor windows restore app = some pool) :
    ∀ w ∈ pool, w ∈ windows ∧ eligible restore w = true ∧
      keyMatches app w = true := by
  obtain ⟨p, hpool, -, hkey⟩ := poolFor_cases hp
  intro w hw
  rw [hpool] at hw
  have h1 : w ∈ (windows.filter (eligible restore)).filter p :=
    (sortWindows_perm _).mem_iff.mp hw
  have h2 := List.of_mem_filter h1
  have h3 := List.mem_of_mem_filter h1
  have h4 := List.of_mem_filter h3
  have h5 := List.mem_of_mem_filter h3
  exact ⟨h5, h4, by rw [← hkey]; exact h2⟩

/-- A pool's window ids are duplicate-free whenever the snapshot's are. -/
theorem poolFor_ids_nodup {windows : List RuntimeWindow} {restore : Bool}
    {app : AppIdentity} {pool : List RuntimeWindow}
    (hw : (windows.map (fun w => w.id)).Nodup)
    (hp : poolFor windows restore app = some pool) :
    (pool.map (fun w => w.id)).Nodup := by
  obtain ⟨p, hpool, -, -⟩ := poolFor_cases hp
  rw [hpool]
  apply sortWindows_ids_nodup
  have hsub : ((windows.filter (eligible restore)).filter p).Sublist windows :=
    (List.filter_sublist _).trans (List.filter_sublist _)
  exact (hsub.map (fun w => w.id)).nodup hw

/-- A candidate returned for a non-`all` match kind is an unclaimed pool
member. -/
theorem ruleCandidate_spec {regexTest : String → String → Bool}
    {claimed : List String} {pool : List RuntimeWindow} {m : WindowMatch}
    {w : RuntimeWindow} (h : ruleCandidate regexTest claimed pool m = some w) :
    w ∈ pool ∧ claimed.contains w.id = false := by
  cases m with
  | mainWindow =>
    rw [ruleCandidate] at h
    cases hf : pool.find? (fun w => w.isFocused && !claimed.contains w.id) with
    | some f =>
      rw [hf, Option.some.injEq] at h
      have hpred := List.find?_some hf
      simp only [Bool.and_eq_true, Bool.not_eq_true'] at hpred
      exact ⟨h ▸ List.mem_of_find?_eq_some hf, h ▸ hpred.2⟩
    | none =>
      rw [hf] at h
      have hpred := List.find?_some h
      simp only [Bool.not_eq_true'] at hpred
      exact ⟨List.mem_of_find?_eq_some h, hpred⟩
  | byIndex i =>
    rw [ruleCandidate] at h
    cases hg : getInt pool i with
    | some v =>
      simp only [hg] at h
      split at h
      · exact absurd h (by simp)
      · rename_i hc
        rw [Option.some.injEq] at h
        subst h
        refine ⟨?_, by simpa using hc⟩
        rw [getInt] at hg
        split at hg
        · obtain ⟨hlt, he⟩ := List.getElem?_eq_some_iff.mp hg
          exact he ▸ List.getElem_mem hlt
        · exact absurd hg (by simp)
    | none =>
      simp only [hg] at h
      exact absurd h (by simp)
  | byTitle pat =>
    rw [ruleCandidate] at h
    have hpred := List.find?_some h
    simp only [Bool.and_eq_true, Bool.not_eq_true'] at hpred
    exact ⟨List.mem_of_find?_eq_some h, hpred.1⟩
  | all => exact absurd h (by simp [ruleCandidate])

/-- The skip taken when a rule has no pool at all. -/
theorem matchStep_poolNone (regexTest : String → String → Bool)
    (windows : List RuntimeWindow) (restore : Bool) (st : MatchState)
    (rule : WindowRule) (hp : poolFor windows restore rule.app = none) :
    matchStep regexTest windows restore st rule
      = ⟨st.claimed, st.matched, st.skipped ++ [⟨rule.id, appLabel rule,
          if ((match rule.app.bundleId with
                | some b => knownBundle windows b
                | none => false) ||
              (match rule.app.name with
                | some n => knownName windows n
                | none => false))
          then .noWindows else .appNotRunning⟩]⟩ := by
  simp only [matchStep, hp]

/-- One iteration on a rule whose pool resolved, with the dead empty-pool
check discharged. -/
theorem matchStep_poolSome (regexTest : String → String → Bool)
    (windows : List RuntimeWindow) (restore : Bool) (st : MatchState)
    (rule : WindowRule) (pool : List RuntimeWindow)
    (hp : poolFor windows restore rule.app = some pool) :
    matchStep regexTest windows restore st rule =
      match rule.wmatch with
      | .all =>
        let unclaimed := pool.filter (fun w => !st.claimed.contains w.id)
        let limited := match rule.limit with
          | some l => jsSliceTo l unclaimed
          | none => unclaimed
        if limited.isEmpty then
          ⟨st.claimed, st.matched, st.skipped ++ [⟨rule.id, appLabel rule, .noMatch⟩]⟩
        else
          ⟨st.claimed ++ limited.map (fun w => w.id),
           st.matched ++ limited.map (fun w => ⟨rule.id, w.id, w⟩), st.skipped⟩
      | m =>
        match ruleCandidate regexTest st.claimed pool m with
        | some w =>
          ⟨st.claimed ++ [w.id], st.matched ++ [⟨rule.id, w.id, w⟩], st.skipped⟩
        | none =>
          ⟨st.claimed, st.matched, st.skipped ++ [⟨rule.id, appLabel rule, .noMatch⟩]⟩ := by
  have hne : pool.isEmpty = false := by
    cases hpl : pool with
    | nil => exact absurd hpl (poolFor_ne_nil hp)
    | cons a l => rfl
  simp only [matchStep, hp, hne, Bool.false_eq_true, if_false]

/-- Dichotomy of one `matchWindows` iteration: a rule either appends exactly
one skip entry carrying its id (touching nothing else), or claims a
non-empty batch of unclaimed pool members (in pool order) and appends one
match entry per claimed window, each carrying its id. -/
theorem matchStep_shape (regexTest : String → String → Bool)
    (windows : List RuntimeWindow) (restore : Bool) (st : MatchState)
    (rule : WindowRule) :
    (∃ e : WindowSkipResult, e.ruleId = rule.id ∧
      matchStep regexTest windows restore st rule
        = ⟨st.claimed, st.matched, st.skipped ++ [e]⟩) ∨
    (∃ pool ws, poolFor windows restore rule.app = some pool ∧ ws ≠ [] ∧
      ws.Sublist pool ∧ (∀ w ∈ ws, st.claimed.contains w.id = false) ∧
      matchStep regexTest windows restore st rule
        = ⟨st.claimed ++ ws.map (fun w => w.id),
           st.matched ++ ws.map (fun w => ⟨rule.id, w.id, w⟩), st.skipped⟩) := by
  cases hp : poolFor windows restore rule.app with
  | none =>
    exact Or.inl ⟨_, rfl, matchStep_poolNone regexTest windows restore st rule hp⟩
  | some pool =>
    have hbase := matchStep_poolSome regexTest windows restore st rule pool hp
    cases hm : rule.wmatch with
    | all =>
      rw [hm] at hbase
      simp only at hbase
      have hlsub : (match rule.limit with
          | some l => jsSliceTo l (pool.filter (fun (w : RuntimeWindow) => !st.claimed.contains w.id))
          | none => pool.filter (fun (w : RuntimeWindow) => !st.claimed.contains w.id)).Sublist
            (pool.filter (fun (w : RuntimeWindow) => !st.claimed.contains w.id)) := by
        cases rule.limit with
        | none => exact List.Sublist.refl _
        | some l =>
          simp only [jsSliceTo]
          split
          · exact List.take_sublist _ _
          · exact List.take_sublist _ _
      cases hl : (match rule.limit with
          | some l => jsSliceTo l (pool.filter (fun (w : RuntimeWindow) => !st.claimed.contains w.id))
          | none => pool.filter (fun (w : RuntimeWindow) => !st.claimed.contains w.id)).isEmpty with
      | true =>
        rw [hl] at hbase
        rw [if_pos rfl] at hbase
        exact Or.inl ⟨_, rfl, hbase⟩
      | false =>
        rw [hl] at hbase
        rw [if_neg (by simp)] at hbase
        refine Or.inr ⟨pool, _, rfl, ?_, ?_, ?_, hbase⟩
        · intro hnil
          rw [hnil] at hl
          simp at hl
        · exact hlsub.trans (List.filter_sublist _)
        · intro w hwmem
          have := List.of_mem_filter (hlsub.mem hwmem)
          simpa using this
    | mainWindow =>
      rw [hm] at hbase
      simp only at hbase
      cases hc : ruleCandidate regexTest st.claimed pool .mainWindow with
      | some w =>
        rw [hc] at hbase
        obtain ⟨hmem, hncl⟩ := ruleCandidate_spec hc
        exact Or.inr ⟨pool, [w], rfl, by simp, List.singleton_sublist.mpr hmem,
          by simpa using hncl, hbase⟩
      | none =>
        rw [hc] at hbase
        exact Or.inl ⟨_, rfl, hbase⟩
    | byIndex i =>
      rw [hm] at hbase
      simp only at hbase
      cases hc : ruleCandidate regexTest st.claimed pool (.byIndex i) with
      | some w =>
        rw [hc] at hbase
        obtain ⟨hmem, hncl⟩ := ruleCandidate_spec hc
        exact Or.inr ⟨pool, [w], rfl, by simp, List.singleton_sublist.mpr hmem,
          by simpa using hncl, hbase⟩
      | none =>
        rw [hc] at hbase
        exact Or.inl ⟨_, rfl, hbase⟩
    | byTitle pat =>
      rw [hm] at hbase
      simp only at hbase
      cases hc : ruleCandidate regexTest st.claimed pool (.byTitle pat) with
      | some w =>
        rw [hc] at hbase
        obtain ⟨hmem, hncl⟩ := ruleCandidate_spec hc
        exact Or.inr ⟨pool, [w], rfl, by simp, List.singleton_sublist.mpr hmem,
          by simpa using hncl, hbase⟩
      | none =>
        rw [hc] at hbase
        exact Or.inl ⟨_, rfl, hbase⟩

/-- A claimed-set miss, in membership form. -/
theorem contains_false_not_mem {l : List String} {a : String}
    (h : l.contains a = false) : a ∉ l := by
  simpa using h

/-- The rule loop only ever appends to the two result lists. -/
theorem matchFold_extends (regexTest : String → String → Bool)
    (windows : List RuntimeWindow) (restore : Bool) :
    ∀ (rules : List WindowRule) (st : MatchState),
      ∃ dm ds,
        (rules.foldl (matchStep regexTest windows restore) st).matched
          = st.matched ++ dm ∧
        (rules.foldl (matchStep regexTest windows restore) st).skipped
          = st.skipped ++ ds := by
  intro rules
  induction rules with
  | nil => intro st; exact ⟨[], [], by simp, by simp⟩
  | cons r rest ih =>
    intro st
    obtain ⟨dm, ds, hm, hs⟩ := ih (matchStep regexTest windows restore st r)
    rcases matchStep_shape regexTest windows restore st r with
      ⟨e, -, heq⟩ | ⟨pool, ws, -, -, -, -, heq⟩
    · refine ⟨dm, e :: ds, ?_, ?_⟩
      · rw [List.foldl_cons, hm, heq]
      · rw [List.foldl_cons, hs, heq]
        simp
    · refine ⟨ws.map (fun w => ⟨r.id, w.id, w⟩) ++ dm, ds, ?_, ?_⟩
      · rw [List.foldl_cons, hm, heq]
        simp
      · rw [List.foldl_cons, hs, heq]

/-- C10: each rule contributes to exactly one side of the output of one
iteration — either at least one match entry (and no skip), or exactly one
skip entry (and no match), each carrying the rule's id; consequently, in a
full `matchWindows` run every rule's id appears in the combined output. -/
theorem matchWindows_rule_dichotomy (regexTest : String → String → Bool)
    (windows : List RuntimeWindow) (restore : Bool) :
    (∀ (st : MatchState) (rule : WindowRule),
      (∃ ms, ms ≠ [] ∧ (∀ m ∈ ms, m.ruleId = rule.id) ∧
        (matchStep regexTest windows restore st rule).matched = st.matched ++ ms ∧
        (matchStep regexTest windows restore st rule).skipped = st.skipped) ∨
      (∃ e : WindowSkipResult, e.ruleId = rule.id ∧
        (matchStep regexTest windows restore st rule).matched = st.matched ∧
        (matchStep regexTest windows restore st rule).skipped = st.skipped ++ [e])) ∧
    (∀ (rules : List WindowRule), ∀ r ∈ rules,
      (∃ m ∈ (matchWindows regexTest rules windows restore).matched, m.ruleId = r.id) ∨
      (∃ e ∈ (matchWindows regexTest rules windows restore).skipped, e.ruleId = r.id)) := by
  have hstep : ∀ (st : MatchState) (rule : WindowRule),
      (∃ ms, ms ≠ [] ∧ (∀ m ∈ ms, m.ruleId = rule.id) ∧
        (matchStep regexTest windows restore st rule).matched = st.matched ++ ms ∧
        (matchStep regexTest windows restore st rule).skipped = st.skipped) ∨
      (∃ e : WindowSkipResult, e.ruleId = rule.id ∧
        (matchStep regexTest windows restore st rule).matched = st.matched ∧
        (matchStep regexTest windows restore st rule).skipped = st.skipped ++ [e]) := by
    intro st rule
    rcases matchStep_shape regexTest windows restore st rule with
      ⟨e, hid, heq⟩ | ⟨pool, ws, -, hne, -, -, heq⟩
    · exact Or.inr ⟨e, hid, by rw [heq], by rw [heq]⟩
    · refine Or.inl ⟨ws.map (fun w => ⟨rule.id, w.id, w⟩), ?_, ?_, by rw [heq], by rw [heq]⟩
      · intro hnil
        exact hne (List.map_eq_nil_iff.mp hnil)
      · intro m hm
        obtain ⟨w, -, rfl⟩ := List.mem_map.mp hm
        rfl
  refine ⟨hstep, ?_⟩
  have haux : ∀ (rules : List WindowRule) (st : MatchState), ∀ r ∈ rules,
      (∃ m ∈ (rules.foldl (matchStep regexTest windows restore) st).matched,
        m.ruleId = r.id) ∨
      (∃ e ∈ (rules.foldl (matchStep regexTest windows restore) st).skipped,
        e.ruleId = r.id) := by
    intro rules
    induction rules with
    | nil => intro st r hr; exact absurd hr (List.not_mem_nil r)
    | cons x rest ih =>
      intro st r hr
      rw [List.foldl_cons]
      rcases List.mem_cons.mp hr with hrx | hrr
      · subst hrx
        obtain ⟨dm, ds, hm2, hs2⟩ :=
          matchFold_extends regexTest windows restore rest
            (matchStep regexTest windows restore st r)
        rcases hstep st r with ⟨ms, hne, hall, hmeq, -⟩ | ⟨e, hid, -, hseq⟩
        · left
          obtain ⟨m, hmmem⟩ := List.exists_mem_of_ne_nil ms hne
          refine ⟨m, ?_, hall m hmmem⟩
          rw [hm2, hmeq]
          exact List.mem_append_left _ (List.mem_append_right _ hmmem)
        · right
          refine ⟨e, ?_, hid⟩
          rw [hs2, hseq]
          exact List.mem_append_left _ (List.mem_append_right _ (List.mem_singleton_self e))
      · exact ih (matchStep regexTest windows restore st x) r hrr
  intro rules r hr
  exact haux rules ⟨[], [], []⟩ r hr

/-- C5 (amended): provided the snapshot's window ids are pairwise distinct
— the identity guarantee of a real snapshot — no window id appears in more
than one matched entry, whatever mix of match kinds the rules use and
although a window sits in both the bundle-id pool and the name pool.  (With
a corrupted snapshot containing two windows under one id, an `all` rule
genuinely double-matches that id; the counterexample exhibits this.) -/
theorem matchWindows_no_double_claim (regexTest : String → String → Bool)
    (rules : List WindowRule) (windows : List RuntimeWindow) (restore : Bool)
    (hw : (windows.map (fun w => w.id)).Nodup) :
    ((matchWindows regexTest rules windows restore).matched.map
      (fun m => m.windowId)).Nodup := by
  suffices h : ∀ (rules : List WindowRule) (st : MatchState),
      (∀ m ∈ st.matched, m.windowId ∈ st.claimed) →
      (st.matched.map (fun m => m.windowId)).Nodup →
      ((rules.foldl (matchStep regexTest windows restore) st).matched.map
        (fun m => m.windowId)).Nodup by
    exact h rules ⟨[], [], []⟩ (by simp) (by simp)
  intro rules
  induction rules with
  | nil => intro st _ h2; exact h2
  | cons r rest ih =>
    intro st h1 h2
    rw [List.foldl_cons]
    rcases matchStep_shape regexTest windows restore st r with
      ⟨e, -, heq⟩ | ⟨pool, ws, hp, -, hsub, hncl, heq⟩
    · rw [heq]
      exact ih _ h1 h2
    · rw [heq]
      apply ih
      · intro m hm
        rcases List.mem_append.mp hm with hml | hmr
        · exact List.mem_append_left _ (h1 m hml)
        · obtain ⟨w, hwmem, rfl⟩ := List.mem_map.mp hmr
          exact List.mem_append_right _ (List.mem_map_of_mem _ hwmem)
      · have hids : ((st.matched ++ ws.map
              (fun w => (⟨r.id, w.id, w⟩ : WindowMatchResult))).map
            (fun (m : WindowMatchResult) => m.windowId))
            = st.matched.map (fun m => m.windowId) ++ ws.map (fun w => w.id) := by
          rw [List.map_append, List.map_map]
          rfl
        rw [hids, List.nodup_append]
        refine ⟨h2, (hsub.map _).nodup (poolFor_ids_nodup hw hp), ?_⟩
        intro a ha hb
        obtain ⟨m, hmmem, rfl⟩ := List.mem_map.mp ha
        obtain ⟨w, hwmem, hww⟩ := List.mem_map.mp hb
        have hclm : m.windowId ∈ st.claimed := h1 m hmmem
        have hnot : w.id ∉ st.claimed := contains_false_not_mem (hncl w hwmem)
        rw [hww] at hnot
        exact hnot hclm

/-- Witness for C5: the amended theorem applied to a mixed byIndex/all rule
list over the duplicate-free two-window fixture snapshot. -/
theorem matchWindows_no_double_claim_witness :
    ([wGb, wGa].map (fun w => w.id)).Nodup ∧
    ((matchWindows noRegex [rIdx0, rAllG] [wGb, wGa] false).matched.map
      (fun m => m.windowId)).Nodup :=
  ⟨by decide, matchWindows_no_double_claim noRegex [rIdx0, rAllG] [wGb, wGa] false (by decide)⟩

/-- Counterexample for C5 as stated: with two distinct windows sharing the
id "9", an `all` rule matches both, so the id appears in two matched
entries. -/
theorem matchWindows_duplicate_id_cex :
    ¬ ((matchWindows noRegex [rAllD] [wDup1, wDup2] false).matched.map
      (fun m => m.windowId)).Nodup := by
  decide

/-- Witness for C10: the appearance half applied to a concrete one-rule run. -/
theorem matchWindows_rule_dichotomy_witness :
    (∃ m ∈ (matchWindows noRegex [rIdx0] [wGb, wGa] false).matched,
      m.ruleId = rIdx0.id) ∨
    (∃ e ∈ (matchWindows noRegex [rIdx0] [wGb, wGa] false).skipped,
      e.ruleId = rIdx0.id) :=
  (matchWindows_rule_dichotomy noRegex [wGb, wGa] false).2 [rIdx0] rIdx0 (by simp)

/-- One iteration on a byIndex rule whose indexed pool slot exists: the slot
window is claimed when unclaimed, and the rule is skipped with `noMatch`
when the slot window was already claimed (never retried at another index). -/
theorem matchStep_byIndex (regexTest : String → String → Bool)
    (windows : List RuntimeWindow) (restore : Bool) (st : MatchState)
    (rule : WindowRule) (i : Int) (pool : List RuntimeWindow) (w : RuntimeWindow)
    (hp : poolFor windows restore rule.app = some pool)
    (hm : rule.wmatch = .byIndex i)
    (hg : getInt pool i = some w) :
    matchStep regexTest windows restore st rule =
      if st.claimed.contains w.id then
        ⟨st.claimed, st.matched, st.skipped ++ [⟨rule.id, appLabel rule, .noMatch⟩]⟩
      else
        ⟨st.claimed ++ [w.id], st.matched ++ [⟨rule.id, w.id, w⟩], st.skipped⟩ := by
  have hbase := matchStep_poolSome regexTest windows restore st rule pool hp
  rw [hm] at hbase
  simp only at hbase
  rw [hbase]
  simp only [ruleCandidate, hg]
  cases hc : st.claimed.contains w.id with
  | true => simp [hc]
  | false => simp [hc]

/-- C8: when two byIndex-0 rules target the same application and the pool
slot 0 exists, the first rule claims the slot-0 window and the second rule
is skipped with reason `noMatch`, even though unclaimed windows may remain
at other pool positions. -/
theorem matchWindows_byIndex_claim_once (regexTest : String → String → Bool)
    (windows : List RuntimeWindow) (restore : Bool) (r1 r2 : WindowRule)
    (pool : List RuntimeWindow) (w0 : RuntimeWindow)
    (happ : r1.app = r2.app)
    (h1 : r1.wmatch = .byIndex 0) (h2 : r2.wmatch = .byIndex 0)
    (hp : poolFor windows restore r2.app = some pool)
    (hw0 : pool.head? = some w0) :
    (matchWindows regexTest [r1, r2] windows restore).matched
      = [⟨r1.id, w0.id, w0⟩] ∧
    (matchWindows regexTest [r1, r2] windows restore).skipped
      = [⟨r2.id, appLabel r2, .noMatch⟩] := by
  have hg : getInt pool 0 = some w0 := by
    cases pool with
    | nil => simp at hw0
    | cons a l =>
      rw [getInt, if_pos (le_refl (0 : Int))]
      simpa using hw0
  have hp1 : poolFor windows restore r1.app = some pool := by
    rw [happ]
    exact hp
  have hs1 : matchStep regexTest windows restore ⟨[], [], []⟩ r1
      = ⟨[w0.id], [⟨r1.id, w0.id, w0⟩], []⟩ := by
    have h := matchStep_byIndex regexTest windows restore ⟨[], [], []⟩ r1 0 pool w0 hp1 h1 hg
    rw [if_neg (by simp)] at h
    simpa using h
  have hs2 : matchStep regexTest windows restore ⟨[w0.id], [⟨r1.id, w0.id, w0⟩], []⟩ r2
      = ⟨[w0.id], [⟨r1.id, w0.id, w0⟩], [⟨r2.id, appLabel r2, .noMatch⟩]⟩ := by
    have h := matchStep_byIndex regexTest windows restore
      ⟨[w0.id], [⟨r1.id, w0.id, w0⟩], []⟩ r2 0 pool w0 hp h2 hg
    rw [if_pos (by simp)] at h
    simpa using h
  have hfold : [r1, r2].foldl (matchStep regexTest windows restore) ⟨[], [], []⟩
      = ⟨[w0.id], [⟨r1.id, w0.id, w0⟩], [⟨r2.id, appLabel r2, .noMatch⟩]⟩ := by
    rw [List.foldl_cons, hs1, List.foldl_cons, hs2, List.foldl_nil]
  constructor
  · show ([r1, r2].foldl (matchStep regexTest windows restore) ⟨[], [], []⟩).matched = _
    rw [hfold]
  · show ([r1, r2].foldl (matchStep regexTest windows restore) ⟨[], [], []⟩).skipped = _
    rw [hfold]

/-- Witness for C8: the theorem applied to the two byIndex-0 Ghostty rules
over the two-window fixture snapshot, where pool slot 1 stays unclaimed. -/
theorem matchWindows_byIndex_claim_once_witness :
    (matchWindows noRegex [rIdx0, rIdx0b] [wGb, wGa] false).matched
      = [⟨"g0", "1", wGa⟩] ∧
    (matchWindows noRegex [rIdx0, rIdx0b] [wGb, wGa] false).skipped
      = [⟨"g1", "com.g", .noMatch⟩] :=
  matchWindows_byIndex_claim_once noRegex [wGb, wGa] false rIdx0 rIdx0b
    [wGa, wGb] wGa rfl rfl rfl (by decide) (by decide)

/-- The `known` test of `matchWindows` fails exactly when no snapshot
window shares the rule's declared identifiers. -/
theorem known_eq_false_iff (windows : List RuntimeWindow) (app : AppIdentity) :
    ((match app.bundleId with
      | some b => knownBundle windows b
      | none => false) ||
     (match app.name with
      | some n => knownName windows n
      | none => false)) = false
    ↔ ∀ w ∈ windows, sharesIdentity app w = false := by
  cases hb : app.bundleId with
  | some b =>
    cases hn : app.name with
    | some n =>
      simp only [knownBundle, knownName, sharesIdentity, hb, hn, Bool.or_eq_false_iff,
        List.any_eq_false, Bool.not_eq_true]
      constructor
      · intro h w hw
        exact ⟨h.1 w hw, h.2 w hw⟩
      · intro h
        exact ⟨fun w hw => (h w hw).1, fun w hw => (h w hw).2⟩
    | none =>
      simp only [knownBundle, sharesIdentity, hb, hn, Bool.or_false,
        List.any_eq_false, Bool.not_eq_true]
  | none =>
    cases hn : app.name with
    | some n =>
      simp only [knownName, sharesIdentity, hb, hn, Bool.false_or,
        List.any_eq_false, Bool.not_eq_true]
    | none =>
      simp only [sharesIdentity, hb, hn, Bool.or_false]
      simp

/-- If no snapshot window shares the rule's identifiers, the rule has no
pool. -/
theorem poolFor_none_of_no_shares (windows : List RuntimeWindow) (restore : Bool)
    (app : AppIdentity) (h : ∀ w ∈ windows, sharesIdentity app w = false) :
    poolFor windows restore app = none := by
  rw [poolFor]
  cases hb : app.bundleId with
  | some b =>
    simp only
    have hfl : (windows.filter (eligible restore)).filter
        (fun w => w.app.bundleId == some b) = [] := by
      rw [List.filter_eq_nil_iff]
      intro w hw
      have hws := h w (List.mem_of_mem_filter hw)
      simp only [sharesIdentity, hb, Bool.or_eq_false_iff] at hws
      simp [hws.1]
    have hbp : bundlePool windows restore b = [] := by
      rw [bundlePool, hfl]
      rfl
    simp [hbp]
  | none =>
    cases hn : app.name with
    | some n =>
      simp only
      have hfl : (windows.filter (eligible restore)).filter
          (fun w => w.app.name == n) = [] := by
        rw [List.filter_eq_nil_iff]
        intro w hw
        have hws := h w (List.mem_of_mem_filter hw)
        simp only [sharesIdentity, hb, hn, Bool.false_or] at hws
        simp [hws]
      have hnp : namePool windows restore n = [] := by
        rw [namePool, hfl]
        rfl
      simp [hnp]
    | none => rfl

/-- A window matching the rule's pool key shares the rule's identifiers. -/
theorem keyMatches_shares (app : AppIdentity) (w : RuntimeWindow)
    (h : keyMatches app w = true) : sharesIdentity app w = true := by
  rw [keyMatches] at h
  rw [sharesIdentity]
  cases hb : app.bundleId with
  | some b =>
    simp only [hb] at h
    simp [hb, h]
  | none =>
    cases hn : app.name with
    | some n =>
      simp only [hb, hn] at h
      simp [hb, hn, h]
    | none =>
      simp only [hb, hn] at h
      exact absurd h (by simp)

/-- With a resolved pool, an iteration's skip list either stays unchanged
or gains exactly one `noMatch` entry. -/
theorem matchStep_skipped_forms (regexTest : String → String → Bool)
    (windows : List RuntimeWindow) (restore : Bool) (st : MatchState)
    (rule : WindowRule) (pool : List RuntimeWindow)
    (hp : poolFor windows restore rule.app = some pool) :
    (matchStep regexTest windows restore st rule).skipped = st.skipped ∨
    (matchStep regexTest windows restore st rule).skipped
      = st.skipped ++ [⟨rule.id, appLabel rule, .noMatch⟩] := by
  have hbase := matchStep_poolSome regexTest windows restore st rule pool hp
  rw [hbase]
  cases hm : rule.wmatch with
  | all =>
    simp only
    split
    · right; rfl
    · left; rfl
  | mainWindow =>
    simp only
    cases ruleCandidate regexTest st.claimed pool .mainWindow with
    | some w => left; rfl
    | none => right; rfl
  | byIndex i =>
    simp only
    cases ruleCandidate regexTest st.claimed pool (.byIndex i) with
    | some w => left; rfl
    | none => right; rfl
  | byTitle pat =>
    simp only
    cases ruleCandidate regexTest st.claimed pool (.byTitle pat) with
    | some w => left; rfl
    | none => right; rfl

/-- C9: an iteration reports `appNotRunning` exactly when no window in the
full, unfiltered snapshot belongs to the rule's application (shares its
declared bundle id or name); and it reports `noWindows` whenever the
application has windows in the snapshot but none of them survives the
standard/minimized eligibility filter.  Stated over `matchStep`, the body
of the `matchWindows` rule loop, for every loop state `st`; the last
conjunct restates the first for a complete `matchWindows` run. -/
theorem matchStep_skip_reasons (regexTest : String → String → Bool)
    (windows : List RuntimeWindow) (restore : Bool) (st : MatchState)
    (rule : WindowRule) :
    ((matchStep regexTest windows restore st rule).skipped
        = st.skipped ++ [⟨rule.id, appLabel rule, .appNotRunning⟩]
      ↔ ∀ w ∈ windows, sharesIdentity rule.app w = false) ∧
    ((∃ w ∈ windows, sharesIdentity rule.app w = true) ∧
      (∀ w ∈ windows, sharesIdentity rule.app w = true → eligible restore w = false) →
      (matchStep regexTest windows restore st rule).skipped
        = st.skipped ++ [⟨rule.id, appLabel rule, .noWindows⟩]) ∧
    ((matchWindows regexTest [rule] windows restore).skipped
        = [⟨rule.id, appLabel rule, .appNotRunning⟩]
      ↔ ∀ w ∈ windows, sharesIdentity rule.app w = false) := by
  have main : ∀ (st : MatchState),
      ((matchStep regexTest windows restore st rule).skipped
          = st.skipped ++ [⟨rule.id, appLabel rule, .appNotRunning⟩]
        ↔ ∀ w ∈ windows, sharesIdentity rule.app w = false) ∧
      ((∃ w ∈ windows, sharesIdentity rule.app w = true) ∧
        (∀ w ∈ windows, sharesIdentity rule.app w = true → eligible restore w = false) →
        (matchStep regexTest windows restore st rule).skipped
          = st.skipped ++ [⟨rule.id, appLabel rule, .noWindows⟩]) := by
    intro st
    cases hp : poolFor windows restore rule.app with
    | none =>
      have hstep := matchStep_poolNone regexTest windows restore st rule hp
      cases hk : ((match rule.app.bundleId with
          | some b => knownBundle windows b
          | none => false) ||
        (match rule.app.name with
          | some n => knownName windows n
          | none => false)) with
      | false =>
        rw [hk] at hstep
        rw [if_neg (by simp)] at hstep
        have hall := (known_eq_false_iff windows rule.app).mp hk
        constructor
        · exact ⟨fun _ => hall, fun _ => by rw [hstep]⟩
        · rintro ⟨⟨w, hwmem, hws⟩, -⟩
          rw [hall w hwmem] at hws
          exact absurd hws (by simp)
      | true =>
        rw [hk] at hstep
        rw [if_pos rfl] at hstep
        constructor
        · constructor
          · intro heq
            rw [hstep] at heq
            simp only at heq
            have := List.append_cancel_left heq
            simp at this
          · intro hall
            rw [(known_eq_false_iff windows rule.app).mpr hall] at hk
            exact absurd hk (by simp)
        · intro _
          rw [hstep]
    | some pool =>
      have hw1 : ∃ w, w ∈ pool := by
        cases hpl : pool with
        | nil => exact absurd hpl (poolFor_ne_nil hp)
        | cons a l => exact ⟨a, List.mem_cons_self a l⟩
      obtain ⟨w1, hw1mem⟩ := hw1
      obtain ⟨hw1win, hw1elig, hw1key⟩ := poolFor_member hp w1 hw1mem
      have hshares := keyMatches_shares rule.app w1 hw1key
      have hforms := matchStep_skipped_forms regexTest windows restore st rule pool hp
      constructor
      · constructor
        · intro heq
          rcases hforms with hf | hf
          · rw [hf] at heq
            have := congrArg List.length heq
            simp at this
          · rw [hf] at heq
            have := List.append_cancel_left heq
            simp at this
        · intro hall
          rw [hall w1 hw1win] at hshares
          exact absurd hshares (by simp)
      · rintro ⟨-, hallinelig⟩
        exact absurd (hallinelig w1 hw1win hshares) (by simp [hw1elig])
  refine ⟨(main st).1, (main st).2, ?_⟩
  have h := (main ⟨[], [], []⟩).1
  simpa using h

/-- Witness for C9: over a snapshot holding only a minimized Ghostty
window, a Ghostty rule is skipped with `noWindows`, and over the empty
snapshot it is skipped with `appNotRunning`. -/
theorem matchStep_skip_reasons_witness :
    (matchStep noRegex
        [⟨"5", appG, "min", "AXWindow", true, true, false, "4", ⟨0, 0, 10, 10⟩⟩] false
        ⟨[], [], []⟩ rIdx0).skipped
      = [] ++ [⟨rIdx0.id, appLabel rIdx0, .noWindows⟩] ∧
    (matchWindows noRegex [rIdx0] [] false).skipped
      = [⟨rIdx0.id, appLabel rIdx0, .appNotRunning⟩] :=
  ⟨(matchStep_skip_reasons noRegex
      [⟨"5", appG, "min", "AXWindow", true, true, false, "4", ⟨0, 0, 10, 10⟩⟩] false
      ⟨[], [], []⟩ rIdx0).2.1 ⟨by decide, by decide⟩,
   (matchStep_skip_reasons noRegex [] false ⟨[], [], []⟩ rIdx0).2.2.mpr (by simp)⟩

/-- Digits never render as a dash. -/
theorem digitChar_ne_dash {n : Nat} (h : n < 10) : Nat.digitChar n ≠ '-' := by
  interval_cases n <;> decide

/-- Decimal digit characters are injective below ten. -/
theorem digitChar_inj {n m : Nat} (hn : n < 10) (hm : m < 10)
    (h : Nat.digitChar n = Nat.digitChar m) : n = m := by
  interval_cases n <;> interval_cases m <;> revert h <;> decide

/-- A fuelled decimal rendering is never empty. -/
theorem natToDecimalAux_ne_nil {fuel n : Nat} (h : 0 < fuel) :
    natToDecimalAux fuel n ≠ [] := by
  cases fuel with
  | zero => exact absurd h (by omega)
  | succ f =>
    rw [natToDecimalAux]
    split
    · simp
    · simp

/-- Decimal renderings contain no dash. -/
theorem natToDecimalAux_dashfree {fuel n : Nat} :
    ∀ c ∈ natToDecimalAux fuel n, c ≠ '-' := by
  induction fuel generalizing n with
  | zero => intro c hc; simp [natToDecimalAux] at hc
  | succ f ih =>
    intro c hc
    rw [natToDecimalAux] at hc
    split at hc
    · rename_i h10
      simp only [List.mem_singleton] at hc
      rw [hc]
      exact digitChar_ne_dash h10
    · rcases List.mem_append.mp hc with h | h
      · exact ih c h
      · simp only [List.mem_singleton] at h
        rw [h]
        exact digitChar_ne_dash (Nat.mod_lt _ (by omega))

/-- Sufficiently fuelled decimal renderings are injective. -/
theorem natToDecimalAux_inj :
    ∀ (f1 : Nat) {f2 n m : Nat}, n < f1 → m < f2 →
      natToDecimalAux f1 n = natToDecimalAux f2 m → n = m := by
  intro f1
  induction f1 with
  | zero => intro f2 n m hn; exact absurd hn (by omega)
  | succ f ih =>
    intro f2 n m hn hm heq
    cases f2 with
    | zero => exact absurd hm (by omega)
    | succ g =>
      rw [natToDecimalAux, natToDecimalAux] at heq
      by_cases h1 : n < 10 <;> by_cases h2 : m < 10
      · rw [if_pos h1, if_pos h2] at heq
        simp only [List.cons.injEq] at heq
        exact digitChar_inj h1 h2 heq.1
      · rw [if_pos h1, if_neg h2] at heq
        exfalso
        have hg : 0 < g := by omega
        have hne := @natToDecimalAux_ne_nil g (m / 10) hg
        have hlen := congrArg List.length heq
        cases haux : natToDecimalAux g (m / 10) with
        | nil => exact hne haux
        | cons a l =>
          rw [haux] at hlen
          simp at hlen
      · rw [if_neg h1, if_pos h2] at heq
        exfalso
        have hg : 0 < f := by omega
        have hne := @natToDecimalAux_ne_nil f (n / 10) hg
        have hlen := congrArg List.length heq
        cases haux : natToDecimalAux f (n / 10) with
        | nil => exact hne haux
        | cons a l =>
          rw [haux] at hlen
          simp at hlen
      · rw [if_neg h1, if_neg h2] at heq
        obtain ⟨hpre, hsuf⟩ := List.append_inj' heq (by simp)
        have hmod : n % 10 = m % 10 := by
          simp only [List.cons.injEq] at hsuf
          exact digitChar_inj (Nat.mod_lt _ (by omega)) (Nat.mod_lt _ (by omega)) hsuf.1
        have hdivlt : n / 10 < f := by
          have : n / 10 < n := Nat.div_lt_self (by omega) (by omega)
          omega
        have hdivlt2 : m / 10 < g := by
          have : m / 10 < m := Nat.div_lt_self (by omega) (by omega)
          omega
        have hdiv : n / 10 = m / 10 := ih hdivlt hdivlt2 hpre
        omega

/-- Splitting at a dash is unambiguous when the suffixes are dash-free. -/
theorem dashfree_concat_inj :
    ∀ (l1 : List Char) {l2 d1 d2 : List Char},
      l1 ++ '-' :: d1 = l2 ++ '-' :: d2 →
      (∀ c ∈ d1, c ≠ '-') → (∀ c ∈ d2, c ≠ '-') →
      l1 = l2 ∧ d1 = d2 := by
  intro l1
  induction l1 with
  | nil =>
    intro l2 d1 d2 heq h1 h2
    cases l2 with
    | nil => simpa using heq
    | cons c l2' =>
      simp only [List.nil_append, List.cons_append, List.cons.injEq] at heq
      exact absurd rfl (h1 '-'
        (by rw [heq.2]; exact List.mem_append_right _ (List.mem_cons_self _ _)))
  | cons c l1' ih =>
    intro l2 d1 d2 heq h1 h2
    cases l2 with
    | nil =>
      simp only [List.nil_append, List.cons_append, List.cons.injEq] at heq
      exact absurd rfl (h2 '-'
        (by rw [← heq.2]; exact List.mem_append_right _ (List.mem_cons_self _ _)))
    | cons c2 l2' =>
      simp only [List.cons_append, List.cons.injEq] at heq
      obtain ⟨hl, hd⟩ := ih heq.2 h1 h2
      exact ⟨by rw [heq.1, hl], hd⟩

/-- Generated rule ids decompose uniquely into slug and counter. -/
theorem ruleIdOf_inj {s1 s2 : String} {n1 n2 : Nat}
    (h : ruleIdOf s1 n1 = ruleIdOf s2 n2) : s1 = s2 ∧ n1 = n2 := by
  have hd : s1.data ++ '-' :: natToDecimal n1 = s2.data ++ '-' :: natToDecimal n2 := by
    have h2 := congrArg String.data h
    simpa [ruleIdOf, String.data_append] using h2
  obtain ⟨hs, hn⟩ := dashfree_concat_inj s1.data hd
    (fun c hc => natToDecimalAux_dashfree c hc)
    (fun c hc => natToDecimalAux_dashfree c hc)
  exact ⟨String.ext hs, natToDecimalAux_inj (n1 + 1) (Nat.lt_succ_self n1)
    (Nat.lt_succ_self n2) hn⟩

/-- Every id the rule loop emits uses the slug of some pending window and a
counter at least as large as that window's current per-app counter. -/
theorem buildRulesAux_id_spec (A : List (String × RuntimeScreen))
    (G : String → List RuntimeWindow) :
    ∀ (ws : List RuntimeWindow) (counters : String → Nat),
      ∀ r ∈ buildRulesAux A G counters ws,
        ∃ w c, w ∈ ws ∧ r.id = ruleIdOf (toKebab (jsName w)) c ∧
          counters (appKey w) ≤ c := by
  intro ws
  induction ws with
  | nil => intro counters r hr; simp [buildRulesAux] at hr
  | cons w rest ih =>
    intro counters r hr
    rw [buildRulesAux] at hr
    cases hrole : screenIdToRole A w.screenId with
    | none =>
      simp only [hrole] at hr
      obtain ⟨w', c, hmem, hid, hge⟩ := ih counters r hr
      exact ⟨w', c, List.mem_cons_of_mem _ hmem, hid, hge⟩
    | some roleName =>
      simp only [hrole] at hr
      cases hlook : A.lookup roleName with
      | none =>
        simp only [hlook] at hr
        obtain ⟨w', c, hmem, hid, hge⟩ := ih counters r hr
        exact ⟨w', c, List.mem_cons_of_mem _ hmem, hid, hge⟩
      | some screen =>
        simp only [hlook] at hr
        rcases List.mem_cons.mp hr with hhd | htl
        · exact ⟨w, counters (appKey w), List.mem_cons_self _ _, by rw [hhd], le_refl _⟩
        · obtain ⟨w', c, hmem, hid, hge⟩ := ih _ r htl
          refine ⟨w', c, List.mem_cons_of_mem _ hmem, hid, le_trans ?_ hge⟩
          by_cases hk : appKey w' = appKey w
          · simp only [hk, if_pos rfl]
            exact Nat.le_succ _
          · simp only [if_neg hk]
            exact le_refl _

/-- The emitted rule ids are duplicate-free whenever the slug determines
the app key over the selection. -/
theorem buildRulesAux_ids_nodup (A : List (String × RuntimeScreen))
    (G : String → List RuntimeWindow) :
    ∀ (ws : List RuntimeWindow) (counters : String → Nat),
      (∀ w1 ∈ ws, ∀ w2 ∈ ws,
        toKebab (jsName w1) = toKebab (jsName w2) → appKey w1 = appKey w2) →
      ((buildRulesAux A G counters ws).map (fun r => r.id)).Nodup := by
  intro ws
  induction ws with
  | nil => intro counters _; simp [buildRulesAux]
  | cons w rest ih =>
    intro counters hinj
    have hinjr : ∀ w1 ∈ rest, ∀ w2 ∈ rest,
        toKebab (jsName w1) = toKebab (jsName w2) → appKey w1 = appKey w2 :=
      fun w1 h1 w2 h2 =>
        hinj w1 (List.mem_cons_of_mem _ h1) w2 (List.mem_cons_of_mem _ h2)
    rw [buildRulesAux]
    cases hrole : screenIdToRole A w.screenId with
    | none =>
      simp only [hrole]
      exact ih counters hinjr
    | some roleName =>
      simp only [hrole]
      cases hlook : A.lookup roleName with
      | none =>
        simp only [hlook]
        exact ih counters hinjr
      | some screen =>
        simp only [hlook, List.map_cons, List.nodup_cons]
        constructor
        · intro hmemid
          obtain ⟨r, hrmem, hrid⟩ := List.mem_map.mp hmemid
          obtain ⟨w', c, hw'mem, hid, hge⟩ := buildRulesAux_id_spec A G rest _ r hrmem
          rw [hid] at hrid
          obtain ⟨hslug, hc⟩ := ruleIdOf_inj hrid
          have hkey : appKey w' = appKey w :=
            hinj w' (List.mem_cons_of_mem _ hw'mem) w (List.mem_cons_self _ _) hslug
          rw [hkey, if_pos rfl] at hge
          omega
        · exact ih _ hinjr

/-- C3 (amended): the rule ids of a built layout are pairwise distinct
provided the slugified application name determines the app key over the
selected windows — i.e. no two selected windows of different applications
(different bundle-id-or-name keys) slugify to the same name.  (Two distinct
apps sharing a slug each start their own counter at 0 and collide; the
counterexample exhibits `foo-0` twice.) -/
theorem buildLayout_ruleIds_nodup (p : BuildLayoutParams)
    (hinj : ∀ w1 ∈ p.selectedWindows, ∀ w2 ∈ p.selectedWindows,
      toKebab (jsName w1) = toKebab (jsName w2) → appKey w1 = appKey w2) :
    ((buildLayout p).windows.map (fun r => r.id)).Nodup :=
  buildRulesAux_ids_nodup p.displayRoleAssignments
    (fun key => winGroup p.selectedWindows key) p.selectedWindows (fun _ => 0) hinj

/-- Witness for C3: the amended theorem applied to a single-app selection. -/
theorem buildLayout_ruleIds_nodup_witness :
    (∀ w1 ∈ pC1w.selectedWindows, ∀ w2 ∈ pC1w.selectedWindows,
      toKebab (jsName w1) = toKebab (jsName w2) → appKey w1 = appKey w2) ∧
    ((buildLayout pC1w).windows.map (fun r => r.id)).Nodup :=
  ⟨by decide, buildLayout_ruleIds_nodup pC1w (by decide)⟩

/-- Counterexample for C3 as stated: two selected windows of different
applications (bundle `com.a` versus a bundle-less app) both named "Foo"
produce the rule id `foo-0` twice. -/
theorem buildLayout_ruleIds_clash_cex :
    ¬ ((buildLayout pC3).windows.map (fun r => r.id)).Nodup := by
  decide

/-- The builder emits one rule per selected window whose screen has an
assigned role, carrying that window's app identity and its byIndex value. -/
theorem buildRulesAux_pairing (A : List (String × RuntimeScreen))
    (G : String → List RuntimeWindow) :
    ∀ (ws : List RuntimeWindow) (counters : String → Nat),
      List.Forall₂ (fun (r : WindowRule) (w : RuntimeWindow) =>
          r.app = ⟨w.app.bundleId, some w.app.name⟩ ∧
          r.wmatch = WindowMatch.byIndex (idxVal G w))
        (buildRulesAux A G counters ws)
        (ws.filter (fun w => emitsRule A w)) := by
  intro ws
  induction ws with
  | nil => intro counters; exact List.Forall₂.nil
  | cons w rest ih =>
    intro counters
    rw [buildRulesAux]
    cases hrole : screenIdToRole A w.screenId with
    | none =>
      have hemit : emitsRule A w = false := by rw [emitsRule, hrole]
      have hfil : (w :: rest).filter (fun v => emitsRule A v)
          = rest.filter (fun v => emitsRule A v) := by
        simp [List.filter_cons, hemit]
      simp only [hrole]
      rw [hfil]
      exact ih counters
    | some roleName =>
      simp only [hrole]
      cases hlook : A.lookup roleName with
      | none =>
        have hemit : emitsRule A w = false := by
          rw [emitsRule, hrole]
          show (A.lookup roleName).isSome = false
          rw [hlook]
          rfl
        have hfil : (w :: rest).filter (fun v => emitsRule A v)
            = rest.filter (fun v => emitsRule A v) := by
          simp [List.filter_cons, hemit]
        simp only [hlook]
        rw [hfil]
        exact ih counters
      | some screen =>
        have hemit : emitsRule A w = true := by
          rw [emitsRule, hrole]
          show (A.lookup roleName).isSome = true
          rw [hlook]
          rfl
        have hfil : (w :: rest).filter (fun v => emitsRule A v)
            = w :: rest.filter (fun v => emitsRule A v) := by
          simp [List.filter_cons, hemit]
        simp only [hlook]
        rw [hfil]
        exact List.Forall₂.cons ⟨rfl, rfl⟩ (ih _)

/-- When every snapshot window is eligible and carries a bundle id, a rule's
bundle pool coincides with the builder's app group for the same key. -/
theorem bundlePool_eq_winGroup (sel : List RuntimeWindow) (rm : Bool) (b : String)
    (hElig : ∀ w ∈ sel, eligible rm w = true)
    (hB : ∀ w ∈ sel, (w.app.bundleId).isSome = true) :
    bundlePool sel rm b = winGroup sel b := by
  rw [bundlePool, winGroup]
  congr 1
  rw [List.filter_eq_self.mpr hElig]
  apply List.filter_congr
  intro w hw
  cases hbw : w.app.bundleId with
  | none =>
    have := hB w hw
    rw [hbw] at this
    exact absurd this (by simp)
  | some b' =>
    rw [appKey, hbw]
    rfl

/-- Membership of a window in its own app group. -/
theorem mem_winGroup_self {sel : List RuntimeWindow} {w : RuntimeWindow}
    (hw : w ∈ sel) : w ∈ winGroup sel (appKey w) := by
  rw [winGroup]
  exact (sortWindows_perm _).mem_iff.mpr (List.mem_filter.mpr ⟨hw, by simp⟩)

/-- Every app-group member comes from the selection. -/
theorem winGroup_subset {sel : List RuntimeWindow} {key : String} :
    ∀ v ∈ winGroup sel key, v ∈ sel := by
  intro v hv
  rw [winGroup] at hv
  exact List.mem_of_mem_filter ((sortWindows_perm _).mem_iff.mp hv)

/-- With duplicate-free snapshot ids, indexing a window's app group at that
window's byIndex value returns the window itself. -/
theorem getInt_winGroup_idxVal (sel : List RuntimeWindow) (w : RuntimeWindow)
    (hw : w ∈ sel) (hNodup : (sel.map (fun v => v.id)).Nodup) :
    getInt (winGroup sel (appKey w)) (idxVal (fun k => winGroup sel k) w)
      = some w := by
  have hwg : w ∈ winGroup sel (appKey w) := mem_winGroup_self hw
  have hex : ∃ x ∈ winGroup sel (appKey w), (fun gw => gw.id == w.id) x =
      true := ⟨w, hwg, by simp⟩
  have hlt : (winGroup sel (appKey w)).findIdx (fun gw => gw.id == w.id)
      < (winGroup sel (appKey w)).length := List.findIdx_lt_length_of_exists hex
  simp only [idxVal]
  rw [if_pos hlt, getInt, if_pos (Int.ofNat_nonneg _), Int.toNat_ofNat,
    List.getElem?_eq_getElem hlt, Option.some.injEq]
  have hpred := @List.findIdx_getElem _ (fun gw => gw.id == w.id)
    (winGroup sel (appKey w)) hlt
  exact List.inj_on_of_nodup_map hNodup
    (winGroup_subset _ (List.getElem_mem hlt)) hw (by simpa using hpred)

/-- Folding the rule loop over builder-generated rules: starting from a
state whose claimed set is exactly the ids of the already-processed prefix,
each rule claims precisely the window it was generated from, and nothing is
skipped. -/
theorem matchFold_roundTrip (regexTest : String → String → Bool)
    (sel : List RuntimeWindow) (rm : Bool)
    (hNodup : (sel.map (fun v => v.id)).Nodup)
    (hElig : ∀ v ∈ sel, eligible rm v = true)
    (hB : ∀ v ∈ sel, (v.app.bundleId).isSome = true) :
    ∀ (rules : List WindowRule) (ws : List RuntimeWindow),
      List.Forall₂ (fun (r : WindowRule) (v : RuntimeWindow) =>
          r.app = ⟨v.app.bundleId, some v.app.name⟩ ∧
          r.wmatch = WindowMatch.byIndex (idxVal (fun k => winGroup sel k) v))
        rules ws →
      ∀ (done : List RuntimeWindow) (st : MatchState),
        sel = done ++ ws →
        st.claimed = done.map (fun v => v.id) →
        (rules.foldl (matchStep regexTest sel rm) st).matched
            = st.matched ++ List.zipWith
                (fun (r : WindowRule) (v : RuntimeWindow) =>
                  (⟨r.id, v.id, v⟩ : WindowMatchResult)) rules ws ∧
        (rules.foldl (matchStep regexTest sel rm) st).skipped = st.skipped := by
  intro rules ws hF
  induction hF with
  | nil => intro done st hsel hcl; simp
  | @cons r w rules' ws' hR hF ih =>
    intro done st hsel hcl
    obtain ⟨happ, hm⟩ := hR
    have hw : w ∈ sel := by
      rw [hsel]
      exact List.mem_append_right _ (List.mem_cons_self _ _)
    have hwg : w ∈ winGroup sel (appKey w) := mem_winGroup_self hw
    have hpool : poolFor sel rm r.app = some (winGroup sel (appKey w)) := by
      cases hbw : w.app.bundleId with
      | none =>
        have := hB w hw
        rw [hbw] at this
        exact absurd this (by simp)
      | some b =>
        have hkey : appKey w = b := by rw [appKey, hbw]; rfl
        rw [happ, poolFor]
        simp only [hbw]
        rw [bundlePool_eq_winGroup sel rm b hElig hB, ← hkey]
        rw [if_neg (by simp [List.isEmpty_iff, List.ne_nil_of_mem hwg])]
    have hget := getInt_winGroup_idxVal sel w hw hNodup
    have hstep := matchStep_byIndex regexTest sel rm st r _ _ w hpool hm hget
    have hnc : st.claimed.contains w.id = false := by
      rw [hcl]
      have hnd := hNodup
      rw [hsel, List.map_append, List.nodup_append] at hnd
      have hwid : w.id ∈ (w :: ws').map (fun v => v.id) :=
        List.mem_map.mpr ⟨w, List.mem_cons_self _ _, rfl⟩
      have hnot : w.id ∉ done.map (fun v => v.id) :=
        fun hmem => hnd.2.2 hmem hwid
      simpa using hnot
    rw [if_neg (by rw [hnc]; simp)] at hstep
    rw [List.foldl_cons, hstep]
    obtain ⟨hm2, hs2⟩ := ih (done ++ [w])
      ⟨st.claimed ++ [w.id], st.matched ++ [⟨r.id, w.id, w⟩], st.skipped⟩
      (by rw [hsel, List.append_assoc]; rfl)
      (by rw [hcl, List.map_append]; rfl)
    constructor
    · rw [hm2]
      simp [List.zipWith]
    · rw [hs2]

/-- C1 (amended): building a layout from a snapshot and immediately matching
it reproduces the original window-to-rule assignment, provided the matcher
runs over exactly the selected windows (the builder's byIndex values are
relative to the selection — matching the wider snapshot can pick a different
window, as the counterexample shows), those windows have duplicate-free ids,
are all eligible, all carry a bundle id, and all sit on role-assigned
screens: then rule `i` matches precisely selected window `i` and nothing is
skipped. -/
theorem buildLayout_matchWindows_roundTrip (regexTest : String → String → Bool)
    (rm : Bool) (p : BuildLayoutParams)
    (hNodup : (p.selectedWindows.map (fun v => v.id)).Nodup)
    (hElig : ∀ v ∈ p.selectedWindows, eligible rm v = true)
    (hB : ∀ v ∈ p.selectedWindows, (v.app.bundleId).isSome = true)
    (hEmit : ∀ v ∈ p.selectedWindows, emitsRule p.displayRoleAssignments v = true) :
    (matchWindows regexTest (buildLayout p).windows p.selectedWindows rm).matched
        = List.zipWith (fun (r : WindowRule) (v : RuntimeWindow) =>
            (⟨r.id, v.id, v⟩ : WindowMatchResult))
          (buildLayout p).windows p.selectedWindows ∧
    (matchWindows regexTest (buildLayout p).windows p.selectedWindows rm).skipped
        = [] := by
  have hF := buildRulesAux_pairing p.displayRoleAssignments
    (fun k => winGroup p.selectedWindows k) p.selectedWindows (fun _ => 0)
  rw [List.filter_eq_self.mpr hEmit] at hF
  have hrules : (buildLayout p).windows = buildRulesAux p.displayRoleAssignments
      (fun k => winGroup p.selectedWindows k) (fun _ => 0) p.selectedWindows := rfl
  obtain ⟨hm, hs⟩ := matchFold_roundTrip regexTest p.selectedWindows rm
    hNodup hElig hB _ _ hF [] ⟨[], [], []⟩ rfl rfl
  constructor
  · show ((buildLayout p).windows.foldl
        (matchStep regexTest p.selectedWindows rm) ⟨[], [], []⟩).matched = _
    rw [hrules, hm]
    rfl
  · show ((buildLayout p).windows.foldl
        (matchStep regexTest p.selectedWindows rm) ⟨[], [], []⟩).skipped = _
    rw [hrules, hs]

/-- Witness for C1: the amended round trip on a two-window selection — both
rules match back their own windows in order. -/
theorem buildLayout_matchWindows_roundTrip_witness :
    (matchWindows noRegex (buildLayout pC1w).windows pC1w.selectedWindows
        false).matched
      = List.zipWith (fun (r : WindowRule) (v : RuntimeWindow) =>
          (⟨r.id, v.id, v⟩ : WindowMatchResult))
        (buildLayout pC1w).windows pC1w.selectedWindows ∧
    (matchWindows noRegex (buildLayout pC1w).windows pC1w.selectedWindows
        false).skipped = [] :=
  buildLayout_matchWindows_roundTrip noRegex false pC1w
    (by decide) (by decide) (by decide) (by decide)

/-- Counterexample for C1 as stated: a layout built from a snapshot with a
partial selection (only window "2" of two same-app windows selected), when
matched against the same unmodified snapshot, assigns its rule to window
"1" — not the selected window it was generated from.  The builder's byIndex
is relative to the selected group while the matcher's pool is the sorted
full snapshot. -/
theorem buildLayout_matchWindows_roundTrip_cex :
    ((matchWindows noRegex (buildLayout pC1).windows [wC1a, wC1b]
        false).matched.map (fun m => (m.ruleId, m.windowId))
      = [("app-0", "1")]) ∧
    pC1.selectedWindows.map (fun w => w.id) = ["2"] := by
  decide

end MacosLayouts
